import Mathlib

/-!
Verification of the SmartButton dynamic template/expression resolution engine.

The definitions below are a shallow embedding of the TypeScript sources:
  - `src/SmartButton/SmartButton.tsx` (second, current version of the file:
    `retrieveRecordWithCache`, `fetchSingleLevelRecord`, `fetchRelatedRecord`,
    `asyncReplaceDynamicValues`, the `resolveConfigs` effect, the post-save /
    unmount cache cleanup)
  - the `ExpressionEvaluator` class (`evaluate`, `evaluateAsync`,
    `extractFieldReferences`, `createDataObject`, `createDataObjectAsync`,
    `convertValueToProperType`, `isDateString`, `getRelatedFieldValue`,
    `fetchRelatedRecord`, `processExpressionWithMethodCalls`).

Modelling conventions:
  - JavaScript values that can appear in a Dataverse record are the inductive
    `JSValue`; `undef` models JS `undefined` and is distinct from `null`.
    Numbers are modelled as integers (the engine never does float arithmetic).
  - A record is an association list from attribute name to value; reading an
    absent attribute yields `undef`, as in JS.
  - The remote data store (`context.webAPI.retrieveRecord`) is a parameter
    `store : Store`; `none` models a rejected promise (network failure /
    not found).  A thrown JS exception is `Except.error ()`.
  - Effects are explicit state passing: `St` carries the process-wide record
    cache, the component's `fetchedRecordKeys` set and two instrumentation
    counters (`fetches` counts actual `webAPI.retrieveRecord` network calls,
    `resolves` counts invocations of `fetchRelatedRecord`).
  - The engine runs single-threaded between awaits; an `await` of a timer
    does not change the state, which is how the retry/poll loop of
    `retrieveRecordWithCache` is modelled.
  - `Date` objects remember the source string they were parsed from; the
    host-defined rendering `String(new Date(s))` is modelled by an injective
    placeholder `jsDateDisplay`.
  - Dynamically dispatched JS methods (`value[methodName](...)`) and the
    `Function`-based evaluation of rewritten boolean expressions are host
    facilities; they enter the model as explicit parameters (`methods`,
    `jsEval`).  A small concrete table `demoMethods` containing standard
    string/date methods is used for concrete evaluations.
-/

/-- Literal `\x7b` character (JS template token opener). -/
def obr : Char := Char.ofNat 123

/-- Literal `\x7d` character (JS template token closer). -/
def cbr : Char := Char.ofNat 125

/-- Single-quote character, used by the expression rewriter. -/
def quoteChar : Char := Char.ofNat 39

/-- Double-quote character. -/
def dquoteChar : Char := Char.ofNat 34

/-- Identifier characters of the method-name regex `[a-zA-Z0-9_]`. -/
def isIdentChar (c : Char) : Bool :=
  (c ≥ 'a' && c ≤ 'z') || (c ≥ 'A' && c ≤ 'Z') || (c ≥ '0' && c ≤ '9') || c = '_'

/-- JS runtime values that flow through the resolver. -/
inductive JSValue where
  | undef
  | null
  | bool (b : Bool)
  | num (n : Int)
  | str (s : String)
  | date (s : String)
deriving DecidableEq, Repr

/-- A Dataverse record: attribute name to value. -/
def Rec := List (String × JSValue)
deriving instance DecidableEq, Repr for Rec

/-- JS property read `record[k]`: `undefined` when the attribute is absent. -/
def jsGet (r : Rec) (k : String) : JSValue :=
  match r.find? (fun p => p.1 = k) with
  | some p => p.2
  | none => JSValue.undef

/-- JS nullish coalescing `a ?? b`. -/
def jsCoalesce (a b : JSValue) : JSValue :=
  if a = JSValue.undef ∨ a = JSValue.null then b else a

/-- JS truthiness of the values the engine inspects. -/
def jsTruthy : JSValue → Bool
  | JSValue.undef => false
  | JSValue.null => false
  | JSValue.bool b => b
  | JSValue.num n => n ≠ 0
  | JSValue.str s => s ≠ ""
  | JSValue.date _ => true

/-- Placeholder for the host-defined rendering `String(new Date(s))`. -/
def jsDateDisplay (s : String) : String := "Date(" ++ s ++ ")"

/-- JS `String(value)`. -/
def jsToString : JSValue → String
  | JSValue.undef => "undefined"
  | JSValue.null => "null"
  | JSValue.bool b => if b then "true" else "false"
  | JSValue.num n => toString n
  | JSValue.str s => s
  | JSValue.date s => jsDateDisplay s

/-- The remote data store `context.webAPI.retrieveRecord`; `none` is a
rejected promise. -/
def Store := String → String → Option Rec

/-- One entry of the process-wide `window.recordCache`: either the
`\x7bisLoading: true\x7d` marker or a completed `\x7brecord\x7d`. -/
inductive CEntry where
  | loading
  | done (r : Rec)
deriving DecidableEq, Repr

/-- Effect state threaded through the engine: the global record cache, the
component instance's `fetchedRecordKeys` set, and instrumentation counters. -/
structure St where
  cache : List (String × CEntry)
  tracked : List String
  fetches : Nat
  resolves : Nat
deriving DecidableEq, Repr

/-- Cache lookup by key. -/
def lookupCache (c : List (String × CEntry)) (k : String) : Option CEntry :=
  match c.find? (fun p => p.1 = k) with
  | some p => some p.2
  | none => none

/-- Cache write `cache[k] = e` (overwrites an existing entry). -/
def setCache (c : List (String × CEntry)) (k : String) (e : CEntry) :
    List (String × CEntry) :=
  match c with
  | [] => [(k, e)]
  | p :: rest => if p.1 = k then (k, e) :: rest else p :: setCache rest k e

/-- Cache delete `delete cache[k]`. -/
def deleteCache (c : List (String × CEntry)) (k : String) :
    List (String × CEntry) :=
  c.filter (fun p => p.1 ≠ k)

/-- `fetchedRecordKeys.add(k)` guarded by `has(k)` as in the source. -/
def track (st : St) (k : String) : St :=
  if k ∈ st.tracked then st else { st with tracked := k :: st.tracked }

/-- The fall-through tail of `retrieveRecordWithCache`: set the loading
marker, perform the network call, store the record or delete the marker and
rethrow on failure. -/
def fetchPart (store : Store) (entityName recordId : String) (st : St) :
    Except Unit Rec × St :=
  let cacheKey := entityName ++ ":" ++ recordId
  let st1 : St := { st with cache := setCache st.cache cacheKey CEntry.loading }
  match store entityName recordId with
  | some r =>
      (Except.ok r,
       { st1 with cache := setCache st1.cache cacheKey (CEntry.done r),
                  fetches := st1.fetches + 1 })
  | none =>
      (Except.error (),
       { st1 with cache := deleteCache st1.cache cacheKey,
                  fetches := st1.fetches + 1 })

/-- `retrieveRecordWithCache(entityName, recordId, retryCount)` from
`SmartButton.tsx`, with the bounded retry recursion carried by the
countdown `remaining = MAX_RETRIES - retryCount` (so `remaining = 0` is the
`retryCount >= MAX_RETRIES` case, and the recursive call at
`retryCount + 1` is the call at `remaining - 1`).  Single-threaded between
awaits, so the cache seen after the retry delay is the same cache; the poll
loop therefore runs to the retry cap and then self-heals by deleting the
stuck marker and falling through to a fresh fetch. -/
def retrieveRecordWithCacheAux (store : Store) (entityName recordId : String) :
    Nat → St → Except Unit Rec × St
  | remaining, st =>
    let cacheKey := entityName ++ ":" ++ recordId
    let st0 := track st cacheKey
    match lookupCache st0.cache cacheKey with
    | some (CEntry.done r) => (Except.ok r, st0)
    | some CEntry.loading =>
      match remaining with
      | 0 =>
          fetchPart store entityName recordId
            { st0 with cache := deleteCache st0.cache cacheKey }
      | remaining' + 1 =>
          match retrieveRecordWithCacheAux store entityName recordId
              remaining' st0 with
          | (Except.error u, st') =>
              (Except.error u,
               { st' with cache := deleteCache st'.cache cacheKey })
          | (Except.ok r, st') => (Except.ok r, st')
    | none => fetchPart store entityName recordId st0

/-- `retrieveRecordWithCache` at an explicit `retryCount` (`MAX_RETRIES = 5`). -/
def retrieveRecordWithCache (store : Store) (entityName recordId : String)
    (retryCount : Nat) (st : St) : Except Unit Rec × St :=
  retrieveRecordWithCacheAux store entityName recordId (5 - retryCount) st

/-- Split a character list at the first closing brace: the characters before
it and the characters after it; `none` when no closing brace occurs.  This is
the `[^\x7d]*\x7d` step of the token regexes. -/
def splitAtClose : List Char → Option (List Char × List Char)
  | [] => none
  | c :: cs =>
    if c = cbr then some ([], cs)
    else
      match splitAtClose cs with
      | some (body, rem) => some (c :: body, rem)
      | none => none

/-- Matching `\x7b([^\x7d]+)\x7d` right after an opening brace: the captured
nonempty body and the remainder after the closing brace. -/
def matchBrace (rest : List Char) : Option (List Char × List Char) :=
  match splitAtClose rest with
  | some ([], _) => none
  | some (body, rem) => some (body, rem)
  | none => none

/-- The `[^()]*\)` step of the argument-list regex: characters up to the
first closing parenthesis, failing if an opening parenthesis or the end of
input comes first. -/
def splitParen : List Char → Option (List Char × List Char)
  | [] => none
  | c :: cs =>
    if c = ')' then some ([], cs)
    else if c = '(' then none
    else
      match splitParen cs with
      | some (inner, rem) => some (c :: inner, rem)
      | none => none

/-- Greedy `[a-zA-Z0-9_]*`: the identifier prefix and the remainder. -/
def splitIdent : List Char → List Char × List Char
  | [] => ([], [])
  | c :: cs =>
    if isIdentChar c then
      match splitIdent cs with
      | (n, r) => (c :: n, r)
    else ([], c :: cs)

/-- Matching the optional method-call suffix
`(\.[a-zA-Z0-9_]+(?:\([^()]*\))?)?` at the given position: the matched
suffix text and the remainder; `none` when the group does not match here. -/
def matchSuffix : List Char → Option (List Char × List Char)
  | [] => none
  | c :: cs' =>
    if c = '.' then
      match splitIdent cs' with
      | ([], _) => none
      | (name, []) => some ('.' :: name, [])
      | (name, p :: rest') =>
        if p = '(' then
          match splitParen rest' with
          | some (inner, rem) =>
              some ('.' :: name ++ '(' :: inner ++ [')'], rem)
          | none => some ('.' :: name, p :: rest')
        else some ('.' :: name, p :: rest')
    else none

/-- A parsed token of `asyncReplaceDynamicValues`' regex
`/\x7b([^\x7d]+)\x7d(\.[a-zA-Z0-9_]+(?:\([^()]*\))?)?/g`: the full matched
text, the captured field path and the optional method-call suffix. -/
structure FieldRef where
  fullMatch : String
  fieldPath : String
  methodCall : Option String
deriving DecidableEq, Repr

/-- Left-to-right global scan of the complex token regex, continuing after
each full match, exactly as repeated `regex.exec` does.  Every step consumes
at least one character, so running the scan with fuel equal to the input
length is exact; the fuel only carries the structural recursion. -/
def scanComplexAux : Nat → List Char → List FieldRef
  | _, [] => []
  | 0, _ => []
  | fuel + 1, c :: cs =>
    if c = obr then
      match matchBrace cs with
      | none => scanComplexAux fuel cs
      | some (body, rem) =>
        match matchSuffix rem with
        | none =>
            { fullMatch := String.mk (obr :: body ++ [cbr]),
              fieldPath := String.mk body,
              methodCall := none } :: scanComplexAux fuel rem
        | some (suf, rem2) =>
            { fullMatch := String.mk (obr :: body ++ [cbr] ++ suf),
              fieldPath := String.mk body,
              methodCall := some (String.mk suf) } :: scanComplexAux fuel rem2
    else scanComplexAux fuel cs

/-- Token extraction for `asyncReplaceDynamicValues`. -/
def extractFieldRefs (text : String) : List FieldRef :=
  scanComplexAux text.data.length text.data

/-- Left-to-right global scan of the simple reference regex
`/\x7b([^\x7d]+)\x7d/g`, used by `ExpressionEvaluator.extractFieldReferences`;
collects the captured field paths (fuel as in `scanComplexAux`). -/
def scanSimpleAux : Nat → List Char → List (List Char)
  | _, [] => []
  | 0, _ => []
  | fuel + 1, c :: cs =>
    if c = obr then
      match matchBrace cs with
      | none => scanSimpleAux fuel cs
      | some (body, rem) => body :: scanSimpleAux fuel rem
    else scanSimpleAux fuel cs

/-- `ExpressionEvaluator.extractFieldReferences`. -/
def extractFieldReferences (expression : String) : List String :=
  (scanSimpleAux expression.data.length expression.data).map String.mk

/-- Backquote character, the `$`-pattern referring to the text before the
match in ECMA-262 GetSubstitution. -/
def backquoteChar : Char := Char.ofNat 96

/-- Split a haystack at the first occurrence of a pattern: the part before
the match and the part after it (`none` when the pattern does not occur; an
empty pattern matches at position 0, as in `String.prototype.replace`). -/
def splitFirstOcc (pat : List Char) : List Char → Option (List Char × List Char)
  | [] => if pat.isEmpty then some ([], []) else none
  | c :: rest =>
    if pat.isPrefixOf (c :: rest) then some ([], (c :: rest).drop pat.length)
    else
      match splitFirstOcc pat rest with
      | some (pre, post) => some (c :: pre, post)
      | none => none

/-- ECMA-262 `GetSubstitution` for a string search pattern (no capture
groups): in the replacement text, `$$` is a literal dollar, `$&` the matched
text, dollar-backquote the part of the string before the match,
dollar-quote the part after it; any other `$` (including `$n`, since there
are no captures) is literal. -/
def getSubstitutionAux (matched before after : List Char) : List Char → List Char
  | [] => []
  | c :: rest =>
    if c = '$' then
      match rest with
      | [] => ['$']
      | c2 :: rest2 =>
        if c2 = '$' then '$' :: getSubstitutionAux matched before after rest2
        else if c2 = '&' then
          matched ++ getSubstitutionAux matched before after rest2
        else if c2 = backquoteChar then
          before ++ getSubstitutionAux matched before after rest2
        else if c2 = quoteChar then
          after ++ getSubstitutionAux matched before after rest2
        else '$' :: getSubstitutionAux matched before after (c2 :: rest2)
    else c :: getSubstitutionAux matched before after rest

/-- The characters that make a `$`-pattern when they follow a dollar. -/
def isDollarSpecial (c : Char) : Bool :=
  c = '$' || c = '&' || c = backquoteChar || c = quoteChar

/-- Whether a text contains one of the `$`-substitution patterns that
`GetSubstitution` expands for a string search pattern (`$$`, `$&`,
dollar-backquote, dollar-quote), as a sliding-window check over adjacent
characters. -/
def hasDollarPattern : List Char → Bool
  | [] => false
  | [_] => false
  | c :: c2 :: rest =>
      (c = '$' && isDollarSpecial c2) || hasDollarPattern (c2 :: rest)

/-- JS `s.replace(pat, repl)` for a plain-string pattern: first occurrence
only, with `GetSubstitution` applied to the replacement text. -/
def jsReplaceFirst (s pat repl : String) : String :=
  match splitFirstOcc pat.data s.data with
  | some (before, after) =>
      String.mk
        (before ++ getSubstitutionAux pat.data before after repl.data ++ after)
  | none => s

/-- JS `s.split(sep)` for a single-character separator, on char lists. -/
def splitChar (sep : Char) : List Char → List (List Char)
  | [] => [[]]
  | c :: cs =>
    if c = sep then [] :: splitChar sep cs
    else
      match splitChar sep cs with
      | [] => [[c]]
      | g :: gs => (c :: g) :: gs

/-- JS `token.split(".")`. -/
def splitDots (s : String) : List String := (splitChar '.' s.data).map String.mk

/-- JS `s.includes(".")`. -/
def hasDot (s : String) : Bool := s.data.contains '.'

/-- JS `s.startsWith(pre)`. -/
def strStartsWith (s pre : String) : Bool := pre.data.isPrefixOf s.data

/-- JS `s.toLowerCase()` (ASCII, which covers the attribute names involved). -/
def toLowerStr (s : String) : String := String.mk (s.data.map Char.toLower)

/-- JS `s.toUpperCase()` (ASCII). -/
def toUpperStr (s : String) : String := String.mk (s.data.map Char.toUpper)

/-- JS `parts.join(".")`. -/
def joinDots : List String → String
  | [] => ""
  | [s] => s
  | s :: rest => s ++ "." ++ joinDots rest

/-- A `\s` whitespace character (the forms that occur in field values). -/
def isSpaceChar (c : Char) : Bool :=
  c = ' ' || c = '\t' || c = '\n' || c = '\r'

/-- The optional timezone tail `(Z|[+-]\d\x7b2\x7d:\d\x7b2\x7d)?$` of the
date regex. -/
def isTZTail : List Char → Bool
  | [] => true
  | [c] => c = 'Z'
  | [s1, a, b, c, d, e] =>
      (s1 = '+' || s1 = '-') && a.isDigit && b.isDigit && c = ':' &&
        d.isDigit && e.isDigit
  | _ => false

/-- `ExpressionEvaluator.isDateString` / the inline date test of
`asyncReplaceDynamicValues`: the regex
`/^\d\x7b4\x7d-\d\x7b2\x7d-\d\x7b2\x7d(T|\s)\d\x7b2\x7d:\d\x7b2\x7d:\d\x7b2\x7d(Z|[+-]\d\x7b2\x7d:\d\x7b2\x7d)?$/`. -/
def isDateStringChars : List Char → Bool
  | y1 :: y2 :: y3 :: y4 :: h1 :: m1 :: m2 :: h2 :: d1 :: d2 :: sep ::
      hh1 :: hh2 :: c1 :: mm1 :: mm2 :: c2 :: ss1 :: ss2 :: rest =>
      y1.isDigit && y2.isDigit && y3.isDigit && y4.isDigit && h1 = '-' &&
      m1.isDigit && m2.isDigit && h2 = '-' && d1.isDigit && d2.isDigit &&
      (sep = 'T' || isSpaceChar sep) && hh1.isDigit && hh2.isDigit &&
      c1 = ':' && mm1.isDigit && mm2.isDigit && c2 = ':' && ss1.isDigit &&
      ss2.isDigit && isTZTail rest
  | _ => false

/-- `isDateString` on strings. -/
def isDateString (s : String) : Bool := isDateStringChars s.data

/-- JS `arg.trim()`. -/
def jsTrim (s : String) : String :=
  String.mk (((s.data.dropWhile isSpaceChar).reverse.dropWhile isSpaceChar).reverse)

/-- The content captured by `/\((.*)\)/.exec(methodCall)`: greedy, so from
the first opening parenthesis to the last closing parenthesis. -/
def argsRaw (mc : String) : Option String :=
  match mc.data.dropWhile (fun c => !(c == '(')) with
  | [] => none
  | _ :: inner0 =>
    match inner0.reverse.dropWhile (fun c => !(c == ')')) with
    | [] => none
    | _ :: revInner => some (String.mk revInner.reverse)

/-- Decimal digits to a natural number. -/
def digitsToNat (cs : List Char) : Nat :=
  cs.foldl (fun a c => a * 10 + (c.toNat - 48)) 0

/-- An integer literal (JSON numbers are modelled as integers; fractional
literals fall back to the quote-stripping branch, which never strips them). -/
def isIntLit : List Char → Bool
  | [] => false
  | '-' :: rest => !rest.isEmpty && rest.all Char.isDigit
  | cs => cs.all Char.isDigit

/-- One argument of a method call: `JSON.parse(arg)` when that succeeds,
otherwise the quote-stripping fallback `arg.replace(/^['"](.*)['"]$/, ...)`. -/
def parseArg (arg : String) : JSValue :=
  let cs := arg.data
  if arg = "true" then JSValue.bool true
  else if arg = "false" then JSValue.bool false
  else if arg = "null" then JSValue.null
  else if isIntLit cs then
    match cs with
    | '-' :: rest => JSValue.num (-(digitsToNat rest : Int))
    | _ => JSValue.num (digitsToNat cs)
  else if 2 ≤ cs.length ∧ cs.head? = some dquoteChar ∧
      cs.getLast? = some dquoteChar then
    JSValue.str (String.mk (cs.drop 1).dropLast)
  else if 2 ≤ cs.length ∧
      (cs.head? = some quoteChar ∨ cs.head? = some dquoteChar) ∧
      (cs.getLast? = some quoteChar ∨ cs.getLast? = some dquoteChar) then
    JSValue.str (String.mk (cs.drop 1).dropLast)
  else JSValue.str arg

/-- `methodCall.substring(1).split("(")[0]`. -/
def methodNameOf (mc : String) : String :=
  String.mk ((mc.data.drop 1).takeWhile (fun c => !(c == '(')))

/-- The argument list of a method call: split on commas, trimmed, empties
dropped, each parsed by `parseArg`. -/
def parseArgs (mc : String) : List JSValue :=
  match argsRaw mc with
  | none => []
  | some raw =>
      (((splitChar ',' raw.data).map (fun g => jsTrim (String.mk g))).filter
        (fun a => a ≠ "")).map parseArg

/-- The model of JS dynamic method dispatch `value[methodName]`: which
methods exist as functions on which values.  The engine itself is
parameterised over this table; `demoMethods` below instantiates it with
standard string/date methods for concrete runs. -/
def MethodTable :=
  JSValue → String → Option (List JSValue → JSValue)

/-- The date pre-coercion of the method-call branch: a date-looking string
value is converted to a `Date` when the method name starts with `.get` or
`.toLocale`. -/
def dateCoerce (mc : String) : JSValue → JSValue
  | JSValue.str s =>
      if isDateString s && (strStartsWith mc ".get" || strStartsWith mc ".toLocale")
      then JSValue.date s
      else JSValue.str s
  | v => v

/-- The `try` block applying a method-call suffix to a resolved value, as in
`asyncReplaceDynamicValues`: date pre-coercion, then dynamic dispatch.
Reading a property of `null`/`undefined` throws in JS; the surrounding
`catch` only logs, so the value as assigned so far passes through.  Unknown
methods are skipped by the `typeof === "function"` guard. -/
def applyMethodCall (methods : MethodTable) (v : JSValue) (mc : String) :
    JSValue :=
  let v1 := dateCoerce mc v
  match v1 with
  | JSValue.null => v1
  | JSValue.undef => v1
  | _ =>
    match methods v1 (methodNameOf mc) with
    | none => v1
    | some f => f (parseArgs mc)

/-- The year component used by the demo `getFullYear`. -/
def yearOfDate (s : String) : Int := (digitsToNat (s.data.take 4) : Int)

/-- A concrete method table holding a few standard JS string/date methods,
used to evaluate the model on concrete inputs. -/
def demoMethods : MethodTable := fun v name =>
  match v, name with
  | JSValue.str s, "toUpperCase" => some (fun _ => JSValue.str (toUpperStr s))
  | JSValue.str s, "toLowerCase" => some (fun _ => JSValue.str (toLowerStr s))
  | JSValue.date s, "toLocaleDateString" =>
      some (fun _ => JSValue.str (jsDateDisplay s))
  | JSValue.date s, "getFullYear" => some (fun _ => JSValue.num (yearOfDate s))
  | _, _ => none

/-- `fetchSingleLevelRecord(currentRecord, field)` from `SmartButton.tsx`:
read the `_field_value` id attribute and its
`@Microsoft.Dynamics.CRM.lookuplogicalname` companion off the current
record; both must be nonempty strings, else resolve to `null` without
fetching.  A failure of `retrieveRecordWithCache` propagates as a thrown
exception. -/
def fetchSingleLevelRecord (store : Store) (currentRecord : Rec)
    (field : String) (st : St) : Except Unit (Option (Rec × String)) × St :=
  let idField := "_" ++ field ++ "_value"
  let logicalNameField :=
    "_" ++ field ++ "_value@Microsoft.Dynamics.CRM.lookuplogicalname"
  match jsGet currentRecord idField, jsGet currentRecord logicalNameField with
  | JSValue.str i, JSValue.str entity =>
    if i ≠ "" ∧ entity ≠ "" then
      let st1 := track st (entity ++ ":" ++ i)
      match retrieveRecordWithCache store entity i 0 st1 with
      | (Except.ok r, st') => (Except.ok (some (r, entity)), st')
      | (Except.error u, st') => (Except.error u, st')
    else (Except.ok none, st)
  | _, _ => (Except.ok none, st)

/-- The `for (let i = 1; ...)` loop of `SmartButton.tsx`'s
`fetchRelatedRecord`: a missing hop `break`s and the last successfully
fetched record is returned; a thrown fetch error reaches the outer `catch`,
which returns `null`. -/
def fetchChainLoop (store : Store) (current : Rec) (path : List String)
    (st : St) : Option Rec × St :=
  match path with
  | [] => (some current, st)
  | f :: fs =>
    match fetchSingleLevelRecord store current f st with
    | (Except.error _, st') => (none, st')
    | (Except.ok none, st') => (some current, st')
    | (Except.ok (some (r, _)), st') => fetchChainLoop store r fs st'

/-- `fetchRelatedRecord(lookupPath)` from `SmartButton.tsx` (the template
resolver's chain walker).  The `resolves` counter counts its invocations. -/
def fetchRelatedRecord (store : Store) (record : Option Rec)
    (lookupPath : List String) (st : St) : Option Rec × St :=
  let st0 : St := { st with resolves := st.resolves + 1 }
  match record, lookupPath with
  | none, _ => (none, st0)
  | some _, [] => (none, st0)
  | some base, f :: fs =>
    match fetchSingleLevelRecord store base f st0 with
    | (Except.error _, st') => (none, st')
    | (Except.ok none, st') => (none, st')
    | (Except.ok (some (r1, _)), st') => fetchChainLoop store r1 fs st'

/-- The body of the first loop of `asyncReplaceDynamicValues`: resolve one
field reference to its raw value.  Dotted paths ending (case-insensitively)
in `id` read `_lookupPath[0]_value` directly off the base record with the
full match as fallback; other dotted paths walk the chain; bare paths read
the base record. -/
def resolveFieldValue (store : Store) (record : Rec) (ref : FieldRef)
    (st : St) : JSValue × St :=
  if hasDot ref.fieldPath then
    let parts := splitDots ref.fieldPath
    let lookupPath := parts.dropLast
    let finalField := parts.getLastD ""
    if toLowerStr finalField = "id" then
      let lookupIdField := "_" ++ lookupPath.headD "" ++ "_value"
      (jsCoalesce (jsGet record lookupIdField) (JSValue.str ref.fullMatch), st)
    else
      match fetchRelatedRecord store (some record) lookupPath st with
      | (some rel, st') => (jsGet rel finalField, st')
      | (none, st') => (JSValue.undef, st')
  else (jsGet record ref.fieldPath, st)

/-- JS `Map.set` on the association list modelling `resolvedValues`. -/
def setAssoc (m : List (String × JSValue)) (k : String) (v : JSValue) :
    List (String × JSValue) :=
  match m with
  | [] => [(k, v)]
  | p :: rest => if p.1 = k then (k, v) :: rest else p :: setAssoc rest k v

/-- JS `Map.get` (`undefined` when the key is missing). -/
def getAssocD (m : List (String × JSValue)) (k : String) (d : JSValue) :
    JSValue :=
  match m.find? (fun p => p.1 = k) with
  | some p => p.2
  | none => d

/-- The first loop of `asyncReplaceDynamicValues`: resolve every field
reference (one resolution per occurrence, in order) into the
`resolvedValues` map. -/
def resolveAllValues (store : Store) (record : Rec) (refs : List FieldRef)
    (m : List (String × JSValue)) (st : St) :
    List (String × JSValue) × St :=
  match refs with
  | [] => (m, st)
  | ref :: rest =>
    match resolveFieldValue store record ref st with
    | (v, st') => resolveAllValues store record rest (setAssoc m ref.fieldPath v) st'

/-- The body of the second loop of `asyncReplaceDynamicValues`: look the
occurrence's value up, fall back to the full match when it is `undefined`,
otherwise apply a method-call suffix if present, then replace the first
occurrence of the matched text. -/
def substStep (methods : MethodTable) (resolved : List (String × JSValue))
    (text : String) (ref : FieldRef) : String :=
  let rv := getAssocD resolved ref.fieldPath JSValue.undef
  let rv2 :=
    if rv = JSValue.undef then JSValue.str ref.fullMatch
    else
      match ref.methodCall with
      | some mc => applyMethodCall methods rv mc
      | none => rv
  jsReplaceFirst text ref.fullMatch (jsToString rv2)

/-- The second loop of `asyncReplaceDynamicValues`. -/
def substAll (methods : MethodTable) (resolved : List (String × JSValue))
    (text : String) (refs : List FieldRef) : String :=
  refs.foldl (substStep methods resolved) text

/-- `asyncReplaceDynamicValues(text)` from `SmartButton.tsx` (current
version): `""` for missing/empty text or missing record; otherwise extract
all field references, resolve them, then substitute occurrence by
occurrence. -/
def asyncReplaceDynamicValues (methods : MethodTable) (store : Store)
    (record : Option Rec) (text : Option String) (st : St) : String × St :=
  match text with
  | none => ("", st)
  | some t =>
    if t = "" then ("", st)
    else
      match record with
      | none => ("", st)
      | some r =>
        let refs := extractFieldRefs t
        match resolveAllValues store r refs [] st with
        | (resolved, st') => (substAll methods resolved t refs, st')

/-- Generic association-list write (JS object/Map assignment). -/
def assocSet {α : Type} (m : List (String × α)) (k : String) (v : α) :
    List (String × α) :=
  match m with
  | [] => [(k, v)]
  | p :: rest => if p.1 = k then (k, v) :: rest else p :: assocSet rest k v

/-- Generic association-list read. -/
def assocFind {α : Type} (m : List (String × α)) (k : String) : Option α :=
  match m.find? (fun p => p.1 = k) with
  | some p => some p.2
  | none => none

/-- Split at the first occurrence of a character: the part before it and the
part after it, `none` when it does not occur. -/
def splitAtChar (sep : Char) : List Char → Option (List Char × List Char)
  | [] => none
  | c :: cs =>
    if c = sep then some ([], cs)
    else
      match splitAtChar sep cs with
      | some (pre, rem) => some (c :: pre, rem)
      | none => none

/-- Greedy repetition `(?:\.[a-zA-Z0-9_]+(?:\([^()]*\))?)+` of method-call
segments: the concatenated matched text and the remainder (each segment
consumes at least one character, so fuel equal to the input length is
exact). -/
def matchChain : Nat → List Char → List Char × List Char
  | 0, cs => ([], cs)
  | fuel + 1, cs =>
    match matchSuffix cs with
    | none => ([], cs)
    | some (seg, rem) =>
      match matchChain fuel rem with
      | (chain, rem2) => (seg ++ chain, rem2)

/-- First rewriting pass of
`ExpressionEvaluator.processExpressionWithMethodCalls`:
`expression.replace(/\x7b([^\x7d]+)\x7d/g, "data[\x27path\x27]")`. -/
def rewriteRefsAux : Nat → List Char → List Char
  | _, [] => []
  | 0, cs => cs
  | fuel + 1, c :: cs =>
    if c = obr then
      match matchBrace cs with
      | none => c :: rewriteRefsAux fuel cs
      | some (body, rem) =>
          "data[\x27".data ++ body ++ "\x27]".data ++ rewriteRefsAux fuel rem
    else c :: rewriteRefsAux fuel cs

/-- The literal `data[\x27` that the second rewriting pass scans for. -/
def dataLit : List Char := "data[\x27".data

/-- Second rewriting pass of `processExpressionWithMethodCalls`: wrap each
`data[\x27path\x27]` that is followed by a method chain in a null guard,
`(data[\x27path\x27] != null ? data[\x27path\x27]chain : null)`, per the regex
`/data\[\x27([^\x27]+)\x27\]((?:\.[a-zA-Z0-9_]+(?:\([^()]*\))?)+)/g` (fuel as
in `scanComplexAux`). -/
def guardChainsAux : Nat → List Char → List Char
  | _, [] => []
  | 0, cs => cs
  | fuel + 1, c :: cs =>
    if dataLit.isPrefixOf (c :: cs) then
      match splitAtChar quoteChar ((c :: cs).drop 6) with
      | some (p, rem0) =>
        if p.isEmpty then c :: guardChainsAux fuel cs
        else
          match rem0 with
          | ']' :: rem1 =>
            match matchChain rem1.length rem1 with
            | ([], _) => c :: guardChainsAux fuel cs
            | (chain, rem2) =>
                "(data[\x27".data ++ p ++ "\x27] != null ? data[\x27".data ++ p ++
                  "\x27]".data ++ chain ++ " : null)".data ++
                  guardChainsAux fuel rem2
          | _ => c :: guardChainsAux fuel cs
      | none => c :: guardChainsAux fuel cs
    else c :: guardChainsAux fuel cs

/-- `ExpressionEvaluator.processExpressionWithMethodCalls`. -/
def processExpressionWithMethodCalls (expression : String) : String :=
  let pass1 := rewriteRefsAux expression.data.length expression.data
  String.mk (guardChainsAux pass1.length pass1)

/-- The model of the host's `Function("data", "record", "context", ...)`
dynamic evaluation (including its internal try/catch and `Boolean`
coercion): a parameter mapping the rewritten expression text, the data map
and the record to the boolean outcome. -/
def JsEval := String → List (String × JSValue) → Rec → Bool

/-- `ExpressionEvaluator.safeEvaluateWithData`. -/
def safeEvaluateWithData (jsEval : JsEval) (record : Rec)
    (expression : String) (data : List (String × JSValue)) : Bool :=
  jsEval (processExpressionWithMethodCalls expression) data record

/-- `ExpressionEvaluator.convertValueToProperType`. -/
def convertValueToProperType : JSValue → JSValue
  | JSValue.null => JSValue.null
  | JSValue.undef => JSValue.null
  | JSValue.str s => if isDateString s then JSValue.date s else JSValue.str s
  | JSValue.date s => JSValue.date s
  | JSValue.bool b => JSValue.bool b
  | JSValue.num n => JSValue.num n

/-- `ExpressionEvaluator.createDataObject` (synchronous variant: dotted
references are skipped). -/
def createDataObject (record : Rec) (refs : List String) :
    List (String × JSValue) :=
  refs.foldl
    (fun data reference =>
      if hasDot reference then data
      else assocSet data reference
        (convertValueToProperType (jsGet record reference)))
    []

/-- Per-evaluator state: the instance's `relatedRecordsCache` and a network
fetch counter for its direct `context.webAPI.retrieveRecord` calls. -/
structure EESt where
  relCache : List (String × Rec)
  fetches : Nat
deriving DecidableEq, Repr

/-- `ExpressionEvaluator.retrieveRecord`: a direct `webAPI` call whose
failure is caught and becomes `null`. -/
def eeRetrieveRecord (store : Store) (entityName i : String) (est : EESt) :
    Option Rec × EESt :=
  match store entityName i with
  | some r => (some r, { est with fetches := est.fetches + 1 })
  | none => (none, { est with fetches := est.fetches + 1 })

/-- The `for (let i = 1; ...)` loop of `ExpressionEvaluator.fetchRelatedRecord`:
unlike the `SmartButton.tsx` walker, a missing hop returns `null`.
A truthy non-string id/entity would make the `webAPI` call itself fail,
which `eeRetrieveRecord` turns into `null` as well. -/
def eeChainLoop (store : Store) (result : Rec) (path : List String)
    (est : EESt) : Option Rec × EESt :=
  match path with
  | [] => (some result, est)
  | f :: fs =>
    match jsGet result ("_" ++ f ++ "_value"),
        jsGet result ("_" ++ f ++ "_value@Microsoft.Dynamics.CRM.lookuplogicalname") with
    | JSValue.str i, JSValue.str e =>
      if i ≠ "" ∧ e ≠ "" then
        match eeRetrieveRecord store e i est with
        | (none, est') => (none, est')
        | (some r, est') => eeChainLoop store r fs est'
      else (none, est)
    | _, _ => (none, est)

/-- `ExpressionEvaluator.fetchRelatedRecord`. -/
def eeFetchRelatedRecord (store : Store) (record : Rec)
    (lookupPath : List String) (est : EESt) : Option Rec × EESt :=
  match lookupPath with
  | [] => (none, est)
  | f :: fs =>
    match jsGet record ("_" ++ f ++ "_value"),
        jsGet record ("_" ++ f ++ "_value@Microsoft.Dynamics.CRM.lookuplogicalname") with
    | JSValue.str i, JSValue.str e =>
      if i ≠ "" ∧ e ≠ "" then
        match eeRetrieveRecord store e i est with
        | (none, est') => (none, est')
        | (some r, est') => eeChainLoop store r fs est'
      else (none, est)
    | _, _ => (none, est)

/-- `ExpressionEvaluator.getRelatedFieldValue`: consult the instance's
`relatedRecordsCache`, walk the chain on a miss, cache a hit, and return the
final field's value (`null` when the record or the field is missing). -/
def getRelatedFieldValue (store : Store) (record : Rec) (path : String)
    (est : EESt) : JSValue × EESt :=
  let parts := splitDots path
  let lookupPath := parts.dropLast
  let finalField := parts.getLastD ""
  let cacheKey := joinDots lookupPath
  match assocFind est.relCache cacheKey with
  | some rel =>
      (if jsGet rel finalField ≠ JSValue.undef then jsGet rel finalField
       else JSValue.null, est)
  | none =>
    match eeFetchRelatedRecord store record lookupPath est with
    | (some rel, est') =>
        (if jsGet rel finalField ≠ JSValue.undef then jsGet rel finalField
         else JSValue.null,
         { est' with relCache := assocSet est'.relCache cacheKey rel })
    | (none, est') => (JSValue.null, est')

/-- `ExpressionEvaluator.createDataObjectAsync`: dotted references resolve
through `getRelatedFieldValue`, direct references off the record; every
value runs through `convertValueToProperType`. -/
def createDataObjectAsync (store : Store) (record : Rec) :
    List String → List (String × JSValue) → EESt →
      List (String × JSValue) × EESt
  | [], data, est => (data, est)
  | reference :: rest, data, est =>
    if hasDot reference then
      match getRelatedFieldValue store record reference est with
      | (v, est') =>
          createDataObjectAsync store record rest
            (assocSet data reference (convertValueToProperType v)) est'
    else
      createDataObjectAsync store record rest
        (assocSet data reference
          (convertValueToProperType (jsGet record reference))) est

/-- `ExpressionEvaluator.evaluate` (synchronous): empty expression is
`true`; any dotted reference makes it refuse with `false` (logging a
warning) because resolution would need asynchronous I/O; otherwise evaluate
over the synchronous data object.  The synchronous path contains no fetch
call site, hence takes and returns no effect state. -/
def evaluate (jsEval : JsEval) (record : Rec) (expression : String) : Bool :=
  if expression = "" then true
  else
    let fieldReferences := extractFieldReferences expression
    if fieldReferences.any (fun ref => hasDot ref) then false
    else
      safeEvaluateWithData jsEval record expression
        (createDataObject record fieldReferences)

/-- `ExpressionEvaluator.evaluateAsync`: resolve all references (including
dotted ones) into the data object first, then evaluate. -/
def evaluateAsync (jsEval : JsEval) (store : Store) (record : Rec)
    (expression : String) (est : EESt) : Bool × EESt :=
  if expression = "" then (true, est)
  else
    let fieldReferences := extractFieldReferences expression
    match createDataObjectAsync store record fieldReferences [] est with
    | (data, est') =>
        (safeEvaluateWithData jsEval record expression data, est')

/-- `ButtonConfig` from `SmartButton.tsx` (Dataverse attribute names kept).
`theia_buttonposition` is the integer sort key. -/
structure ButtonConfig where
  theia_buttonlabel : String
  theia_url : String
  theia_buttonposition : Int
  theia_buttontooltip : Option String
  theia_tablename : String
  theia_buttonicon : Option String
  theia_visibilityexpression : Option String
  theia_showaslink : Bool
  theia_actionscript : Option String
  isVisible : Option Bool
deriving DecidableEq, Repr

/-- Combined effect state of one `resolveConfigs` pass: the global cache
state used by the template resolver and the expression evaluator instance's
state. -/
structure PipeSt where
  st : St
  est : EESt
deriving DecidableEq, Repr

/-- The comparator `(a, b) => a.theia_buttonposition - b.theia_buttonposition`
as the total preorder it induces. -/
def posLe (a b : ButtonConfig) : Prop :=
  a.theia_buttonposition ≤ b.theia_buttonposition

instance : DecidableRel posLe := fun a b =>
  inferInstanceAs (Decidable (a.theia_buttonposition ≤ b.theia_buttonposition))

instance : IsTotal ButtonConfig posLe :=
  ⟨fun a b => le_total a.theia_buttonposition b.theia_buttonposition⟩

instance : IsTrans ButtonConfig posLe :=
  ⟨fun _ _ _ h1 h2 => le_trans h1 h2⟩

/-- `[...configs].sort((a, b) => a.theia_buttonposition - b.theia_buttonposition)`.
`Array.prototype.sort` is specified to be stable, and a stable sort by a
total preorder is uniquely determined, so insertion sort is an exact model. -/
def sortByPosition (configs : List ButtonConfig) : List ButtonConfig :=
  List.insertionSort posLe configs

/-- The per-config body of the `resolveConfigs` effect: resolve the four
templated text fields in source order (label, tooltip, url, action script);
the visibility expression is carried over unresolved in the current
version. -/
def resolveOneConfig (methods : MethodTable) (store : Store) (record : Rec)
    (cfg : ButtonConfig) (st : St) : ButtonConfig × St :=
  match asyncReplaceDynamicValues methods store (some record)
      (some cfg.theia_buttonlabel) st with
  | (lbl, st1) =>
  match asyncReplaceDynamicValues methods store (some record)
      cfg.theia_buttontooltip st1 with
  | (tip, st2) =>
  match asyncReplaceDynamicValues methods store (some record)
      (some cfg.theia_url) st2 with
  | (u, st3) =>
  match asyncReplaceDynamicValues methods store (some record)
      cfg.theia_actionscript st3 with
  | (scr, st4) =>
    ({ cfg with
        theia_buttonlabel := lbl,
        theia_buttontooltip := some tip,
        theia_url := u,
        theia_actionscript := some scr }, st4)

/-- The visibility check
`!resolvedConfig.theia_visibilityexpression || await evaluateAsync(...)`:
a missing or empty expression short-circuits to visible. -/
def configVisibility (jsEval : JsEval) (store : Store) (record : Rec)
    (cfg : ButtonConfig) (est : EESt) : Bool × EESt :=
  match cfg.theia_visibilityexpression with
  | none => (true, est)
  | some e =>
    if e = "" then (true, est)
    else evaluateAsync jsEval store record e est

/-- The sequential `for (const config of sortedConfigs)` loop of
`resolveConfigs`: resolve, evaluate visibility, and push only visible
configs with `isVisible` attached. -/
def resolveConfigsLoop (methods : MethodTable) (jsEval : JsEval)
    (store : Store) (record : Rec) :
    List ButtonConfig → PipeSt → List ButtonConfig × PipeSt
  | [], ps => ([], ps)
  | cfg :: rest, ps =>
    match resolveOneConfig methods store record cfg ps.st with
    | (rc, st') =>
    match configVisibility jsEval store record rc ps.est with
    | (vis, est') =>
    match resolveConfigsLoop methods jsEval store record rest ⟨st', est'⟩ with
    | (out, ps') =>
        (if vis then { rc with isVisible := some true } :: out else out, ps')

/-- A variant of the loop that keeps every config together with its
visibility verdict; used to characterise the output of the real loop. -/
def resolveConfigsAll (methods : MethodTable) (jsEval : JsEval)
    (store : Store) (record : Rec) :
    List ButtonConfig → PipeSt → List (ButtonConfig × Bool) × PipeSt
  | [], ps => ([], ps)
  | cfg :: rest, ps =>
    match resolveOneConfig methods store record cfg ps.st with
    | (rc, st') =>
    match configVisibility jsEval store record rc ps.est with
    | (vis, est') =>
    match resolveConfigsAll methods jsEval store record rest ⟨st', est'⟩ with
    | (out, ps') => ((rc, vis) :: out, ps')

/-- The `resolveConfigs` effect of `SmartButton.tsx` (current version): one
resolution pass over the configs, sorted ascending by position, processed
sequentially. -/
def resolveConfigs (methods : MethodTable) (jsEval : JsEval) (store : Store)
    (record : Rec) (configs : List ButtonConfig) (ps : PipeSt) :
    List ButtonConfig × PipeSt :=
  resolveConfigsLoop methods jsEval store record (sortByPosition configs) ps

/-- The cache deletion loop shared by `handlePostSave` and the unmount
cleanup effect: `fetchedRecordKeys.current.forEach(key => delete cache[key])`. -/
def deleteTrackedKeys (tracked : List String)
    (cache : List (String × CEntry)) : List (String × CEntry) :=
  tracked.foldl (fun c k => deleteCache c k) cache

/-- A concrete evaluation oracle for the dynamic `Function` evaluation,
used in concrete runs where the outcome of the rewritten JS text is not at
issue. -/
def demoJsEval : JsEval := fun _ _ _ => true

/-- Empty effect state: fresh cache, nothing tracked, zero counters. -/
def st0 : St := { cache := [], tracked := [], fetches := 0, resolves := 0 }

/-- Empty evaluator state. -/
def est0 : EESt := { relCache := [], fetches := 0 }

/-- The `@Microsoft.Dynamics.CRM.lookuplogicalname` companion key of a
lookup attribute. -/
def lnKey (f : String) : String :=
  "_" ++ f ++ "_value@Microsoft.Dynamics.CRM.lookuplogicalname"

/-- A store on which every fetch fails. -/
def failStore : Store := fun _ _ => none

/-- §8 scenario: a contact whose `parentcustomerid` lookup points at account
`A1`. -/
def baseContact : Rec :=
  [("_parentcustomerid_value", JSValue.str "A1"),
   (lnKey "parentcustomerid", JSValue.str "account")]

/-- Intermediate account record lacking the `parentaccountid` lookup
attributes but carrying a `websiteurl`. -/
def accountA1 : Rec :=
  [("websiteurl", JSValue.str "http://x.example"),
   ("name", JSValue.str "Acme")]

/-- Intermediate account record lacking both the `parentaccountid` lookup
attributes and `websiteurl`. -/
def accountA1NoUrl : Rec := [("name", JSValue.str "Acme")]

/-- Store resolving `account:A1` to `accountA1`. -/
def storeAcme : Store :=
  fun e i => if e = "account" && i = "A1" then some accountA1 else none

/-- Store resolving `account:A1` to `accountA1NoUrl`. -/
def storeAcmeNoUrl : Store :=
  fun e i => if e = "account" && i = "A1" then some accountA1NoUrl else none

/-- Base record with a single lookup `a` pointing at `t:R1`. -/
def baseDup : Rec :=
  [("_a_value", JSValue.str "R1"), (lnKey "a", JSValue.str "t")]

/-- Related record with attribute `x`. -/
def recR1 : Rec := [("x", JSValue.str "V")]

/-- Store resolving `t:R1` to `recR1`. -/
def storeDup : Store :=
  fun e i => if e = "t" && i = "R1" then some recR1 else none

/-- Base record whose lookup `a` holds foreign-key id `ID-A`. -/
def baseIdCase : Rec :=
  [("_a_value", JSValue.str "ID-A"), (lnKey "a", JSValue.str "t")]

/-- The record `a` points at; its own lookup `b` holds foreign-key id
`ID-B`. -/
def recIdA : Rec :=
  [("_b_value", JSValue.str "ID-B"), (lnKey "b", JSValue.str "u")]

/-- Store resolving `t:ID-A` to `recIdA`. -/
def storeIdCase : Store :=
  fun e i => if e = "t" && i = "ID-A" then some recIdA else none

/-- Modelled from the amended spec words for value coercion: null and
undefined both coerce to null; a string matching the code's timestamp
pattern (`YYYY-MM-DD`, a `T` or whitespace separator, `hh:mm:ss`, an
optional `Z` or signed `hh:mm` offset) becomes a date carrying that string;
a date passes through; every other value is unchanged. -/
def coerceSpecAmended : JSValue → JSValue
  | JSValue.undef => JSValue.null
  | JSValue.null => JSValue.null
  | JSValue.str s => if isDateString s then JSValue.date s else JSValue.str s
  | JSValue.date s => JSValue.date s
  | JSValue.bool b => JSValue.bool b
  | JSValue.num n => JSValue.num n

theorem track_cache (st : St) (k : String) : (track st k).cache = st.cache := by
  unfold track
  split <;> rfl

theorem track_fetches (st : St) (k : String) :
    (track st k).fetches = st.fetches := by
  unfold track
  split <;> rfl

theorem lookup_deleteCache_self (c : List (String × CEntry)) (k : String) :
    lookupCache (deleteCache c k) k = none := by
  induction c with
  | nil => rfl
  | cons p rest ih =>
    unfold deleteCache at ih ⊢
    by_cases hp : p.1 = k
    · simp [List.filter, hp, lookupCache] at ih ⊢
      exact ih
    · simp only [List.filter]
      have : (decide (p.1 ≠ k)) = true := by simp [hp]
      rw [this]
      simp only [lookupCache, List.find?]
      have : (decide (p.1 = k)) = false := by simp [hp]
      rw [this]
      exact ih

theorem lookup_deleteCache_ne (c : List (String × CEntry)) (k k' : String)
    (h : k' ≠ k) : lookupCache (deleteCache c k) k' = lookupCache c k' := by
  induction c with
  | nil => rfl
  | cons p rest ih =>
    unfold deleteCache at ih ⊢
    by_cases hp : p.1 = k
    · have hne : (decide (p.1 ≠ k)) = false := by simp [hp]
      simp only [List.filter, hne]
      have : lookupCache (p :: rest) k' = lookupCache rest k' := by
        simp only [lookupCache, List.find?]
        have : (decide (p.1 = k')) = false := by
          simp [hp]
          exact fun hc => absurd hc.symm h
        rw [this]
      rw [this]
      exact ih
    · have hne : (decide (p.1 ≠ k)) = true := by simp [hp]
      simp only [List.filter, hne]
      by_cases hk' : p.1 = k'
      · simp only [lookupCache, List.find?, hk']
        simp
      · simp only [lookupCache, List.find?]
        have : (decide (p.1 = k')) = false := by simp [hk']
        rw [this]
        exact ih

theorem lookup_setCache_self (c : List (String × CEntry)) (k : String)
    (e : CEntry) : lookupCache (setCache c k e) k = some e := by
  induction c with
  | nil => simp [setCache, lookupCache, List.find?]
  | cons p rest ih =>
    unfold setCache
    by_cases hp : p.1 = k
    · simp [hp, lookupCache, List.find?]
    · simp only [hp, if_neg, not_false_iff]
      simp only [lookupCache, List.find?]
      have : (decide (p.1 = k)) = false := by simp [hp]
      rw [this]
      exact ih

theorem lookup_setCache_ne (c : List (String × CEntry)) (k k' : String)
    (e : CEntry) (h : k' ≠ k) :
    lookupCache (setCache c k e) k' = lookupCache c k' := by
  induction c with
  | nil =>
    simp only [setCache, lookupCache, List.find?]
    have : (decide (k = k')) = false := by
      simp
      exact fun hc => absurd hc.symm h
    rw [this]
  | cons p rest ih =>
    unfold setCache
    by_cases hp : p.1 = k
    · simp only [hp, if_pos]
      simp only [lookupCache, List.find?]
      have h1 : (decide (k = k')) = false := by
        simp
        exact fun hc => absurd hc.symm h
      rw [h1]
      have h2 : (decide (p.1 = k')) = false := by
        rw [hp]
        exact h1
      rw [h2]
    · simp only [hp, if_neg, not_false_iff]
      by_cases hk' : p.1 = k'
      · simp [lookupCache, List.find?, hk']
      · simp only [lookupCache, List.find?]
        have : (decide (p.1 = k')) = false := by simp [hk']
        rw [this]
        exact ih

/-- C6 counterexample: the claim says coercion maps `undefined` to itself,
but `convertValueToProperType` returns `null` for `undefined`, and the two
are distinct JS values. -/
theorem C6_undefined_not_preserved :
    convertValueToProperType JSValue.undef ≠ JSValue.undef := by
  decide

/-- C6 (amended): value coercion maps null and undefined both to `null`;
a string matching the code's timestamp pattern (which also admits a
whitespace separator in place of `T`) becomes a date; a date passes
through; every other value is unchanged. -/
theorem C6_coercion_characterization :
    ∀ v : JSValue, convertValueToProperType v = coerceSpecAmended v := by
  intro v
  cases v <;> rfl

/-- C7: applying a method-call suffix to a defined resolved value is a
no-op whenever the named method does not exist as a function on the value
(after the date pre-coercion step that the source applies first), and the
application never throws out of the resolver: the model is total by
construction, mirroring the source's `try`/`catch`, and a `null` resolved
value (whose property read throws in JS and is caught) passes through as
`null`. -/
theorem C7_missing_method_noop :
    ∀ (methods : MethodTable) (v : JSValue) (mc : String),
      (v ≠ JSValue.null → v ≠ JSValue.undef →
        methods (dateCoerce mc v) (methodNameOf mc) = none →
        applyMethodCall methods v mc = dateCoerce mc v) ∧
      applyMethodCall methods JSValue.null mc = JSValue.null := by
  intro methods v mc
  constructor
  · intro hnull hundef hmeth
    unfold applyMethodCall
    cases hv : dateCoerce mc v with
    | null =>
      exfalso
      apply hnull
      cases v <;> simp [dateCoerce] at hv ⊢
      next s => split at hv <;> simp at hv
    | undef =>
      exfalso
      apply hundef
      cases v <;> simp [dateCoerce] at hv ⊢
      next s => split at hv <;> simp at hv
    | bool b => rw [hv] at hmeth; simp [hmeth]
    | num n => rw [hv] at hmeth; simp [hmeth]
    | str s => rw [hv] at hmeth; simp [hmeth]
    | date s => rw [hv] at hmeth; simp [hmeth]
  · rfl

/-- C7 witness: on the concrete table `demoMethods`, the unknown method
`.frobnicate()` applied to the number `5` is a no-op. -/
theorem C7_missing_method_noop_witness :
    applyMethodCall demoMethods (JSValue.num 5) ".frobnicate()" =
      dateCoerce ".frobnicate()" (JSValue.num 5) :=
  (C7_missing_method_noop demoMethods (JSValue.num 5) ".frobnicate()").1
    (by decide) (by decide) (by rfl)

theorem string_mk_data (s : String) : String.mk s.data = s := by
  cases s
  rfl

theorem splitFirstOcc_spec (pat : List Char) :
    ∀ (hay b a : List Char), splitFirstOcc pat hay = some (b, a) →
      hay = b ++ pat ++ a := by
  intro hay
  induction hay with
  | nil =>
    intro b a h
    unfold splitFirstOcc at h
    by_cases hp : pat.isEmpty
    · have hpe : pat = [] := by simpa [List.isEmpty_iff] using hp
      simp [hp] at h
      obtain ⟨rfl, rfl⟩ := h
      simp [hpe]
    · simp [hp] at h
  | cons c rest ih =>
    intro b a h
    unfold splitFirstOcc at h
    by_cases hp : pat.isPrefixOf (c :: rest)
    · simp only [hp, if_pos] at h
      simp at h
      obtain ⟨rfl, rfl⟩ := h
      have hpre := List.prefix_iff_eq_append.mp (List.isPrefixOf_iff_prefix.mp hp)
      simpa using hpre.symm
    · simp only [hp, Bool.false_eq_true, if_neg, not_false_iff] at h
      rcases hs : splitFirstOcc pat rest with _ | ⟨pre, post⟩ <;> rw [hs] at h
      · simp at h
      · simp at h
        obtain ⟨rfl, rfl⟩ := h
        have := ih pre post hs
        simp [this]

theorem getSubstitutionAux_no_pattern (matched before after : List Char) :
    ∀ (n : Nat) (repl : List Char), repl.length ≤ n →
      hasDollarPattern repl = false →
      getSubstitutionAux matched before after repl = repl := by
  intro n
  induction n with
  | zero =>
    intro repl hlen _
    have : repl = [] := List.length_eq_zero.mp (Nat.le_zero.mp hlen)
    subst this
    rfl
  | succ n ih =>
    intro repl hlen hpat
    cases repl with
    | nil => rfl
    | cons c rest =>
      cases rest with
      | nil =>
        by_cases hc : c = '$'
        · subst hc
          unfold getSubstitutionAux
          rw [if_pos rfl]
        · unfold getSubstitutionAux
          rw [if_neg hc]
          rfl
      | cons c2 rest2 =>
        unfold hasDollarPattern at hpat
        rw [Bool.or_eq_false_iff] at hpat
        obtain ⟨hwin, hrest⟩ := hpat
        have hrec : getSubstitutionAux matched before after (c2 :: rest2) =
            c2 :: rest2 :=
          ih (c2 :: rest2) (by simp at hlen ⊢; omega) hrest
        by_cases hc : c = '$'
        · subst hc
          have hspec : isDollarSpecial c2 = false := by
            rcases Bool.and_eq_false_iff.mp hwin with h | h
            · simp at h
            · exact h
          unfold isDollarSpecial at hspec
          rw [Bool.or_eq_false_iff] at hspec
          obtain ⟨hspec, h4⟩ := hspec
          rw [Bool.or_eq_false_iff] at hspec
          obtain ⟨hspec, h3⟩ := hspec
          rw [Bool.or_eq_false_iff] at hspec
          obtain ⟨h1, h2⟩ := hspec
          unfold getSubstitutionAux
          rw [if_pos rfl]
          show (if c2 = '$' then
              '$' :: getSubstitutionAux matched before after rest2
            else if c2 = '&' then
              matched ++ getSubstitutionAux matched before after rest2
            else if c2 = backquoteChar then
              before ++ getSubstitutionAux matched before after rest2
            else if c2 = quoteChar then
              after ++ getSubstitutionAux matched before after rest2
            else '$' :: getSubstitutionAux matched before after (c2 :: rest2)) =
            '$' :: c2 :: rest2
          rw [if_neg (of_decide_eq_false h1), if_neg (of_decide_eq_false h2),
            if_neg (of_decide_eq_false h3), if_neg (of_decide_eq_false h4),
            hrec]
        · unfold getSubstitutionAux
          rw [if_neg hc, hrec]

theorem jsReplaceFirst_self_noDollar (t m : String)
    (h : hasDollarPattern m.data = false) : jsReplaceFirst t m m = t := by
  unfold jsReplaceFirst
  rcases hs : splitFirstOcc m.data t.data with _ | ⟨b, a⟩
  · rfl
  · have hspec := splitFirstOcc_spec m.data t.data b a hs
    show String.mk (b ++ getSubstitutionAux m.data b a m.data ++ a) = t
    rw [getSubstitutionAux_no_pattern m.data b a m.data.length m.data
      le_rfl h]
    rw [show b ++ m.data ++ a = t.data from hspec.symm, string_mk_data]

/-- C2 counterexample, two failure modes of the claim.  (a) For the token
`\x7bparent.id\x7d.toUpperCase()` on a record where the `_parent_value`
attribute is absent (raw value undefined), the `id` special case
substitutes the full match as the value, the method-call branch then
applies `toUpperCase` to that fallback text, and the output is the mangled
`\x7bPARENT.ID\x7d.TOUPPERCASE()`.  (b) For the token `\x7ba$&\x7d` with a
missing attribute, `newText.replace(fullMatch, fullMatch)` expands the `$&`
substitution pattern in the replacement, so the output is
`\x7ba\x7ba$&\x7d\x7d`, not the unchanged token. -/
theorem C2_id_methodcall_counterexample :
    jsGet [] "_parent_value" = JSValue.undef ∧
    (asyncReplaceDynamicValues demoMethods failStore (some [])
        (some "\x7bparent.id\x7d.toUpperCase()") st0).1 ≠
      "\x7bparent.id\x7d.toUpperCase()" ∧
    (asyncReplaceDynamicValues demoMethods failStore (some [])
        (some "\x7bparent.id\x7d.toUpperCase()") st0).1 =
      "\x7bPARENT.ID\x7d.TOUPPERCASE()" ∧
    (asyncReplaceDynamicValues demoMethods failStore (some [])
        (some "\x7ba$&\x7d") st0).1 = "\x7ba\x7ba$&\x7d\x7d" ∧
    (asyncReplaceDynamicValues demoMethods failStore (some [])
        (some "\x7ba$&\x7d") st0).1 ≠ "\x7ba$&\x7d" := by
  refine ⟨rfl, ?_, ?_, ?_, ?_⟩ <;> decide

/-- C2 (amended): for every token occurrence whose entry in the resolved
value map is `undefined` (attribute absent on the base record or broken
non-`id` lookup chain) and whose matched text contains none of the
`GetSubstitution` `$`-patterns, the substitution step is the identity on
the text: the original matched text stays, never `"undefined"`, and the
token never vanishes.  (The exceptions forced by the counterexample: the
`id` special case stores the fallback text as a defined value, so a
method-call suffix can still rewrite it; and a matched text containing a
`$`-pattern such as `$&` is re-expanded by `String.prototype.replace`.) -/
theorem C2_undefined_value_substitution_identity :
    ∀ (methods : MethodTable) (resolved : List (String × JSValue))
      (text : String) (ref : FieldRef),
      getAssocD resolved ref.fieldPath JSValue.undef = JSValue.undef →
      hasDollarPattern ref.fullMatch.data = false →
      substStep methods resolved text ref = text := by
  intro methods resolved text ref h hdollar
  unfold substStep
  rw [h]
  simp only [if_pos rfl]
  show jsReplaceFirst text ref.fullMatch (jsToString (JSValue.str ref.fullMatch)) = text
  rw [show jsToString (JSValue.str ref.fullMatch) = ref.fullMatch from rfl]
  exact jsReplaceFirst_self_noDollar text ref.fullMatch hdollar

/-- C2 witness: a concrete token with an empty resolved map substitutes to
the unchanged text. -/
theorem C2_undefined_value_substitution_identity_witness :
    substStep demoMethods [] "Label \x7bmissing\x7d!"
      { fullMatch := "\x7bmissing\x7d", fieldPath := "missing",
        methodCall := none } = "Label \x7bmissing\x7d!" :=
  C2_undefined_value_substitution_identity demoMethods [] "Label \x7bmissing\x7d!"
    { fullMatch := "\x7bmissing\x7d", fieldPath := "missing", methodCall := none }
    (by rfl) (by decide)

/-- C5 counterexample: for the token `\x7ba.b.id\x7d` the claim expects the
id stored at the end of the preceding chain (`_b_value` on the record `a`
points at, here `ID-B`), but the source reads `_a_value` off the base
record and resolves `ID-A`; no fetch is performed. -/
theorem C5_id_token_uses_first_hop :
    (asyncReplaceDynamicValues demoMethods storeIdCase (some baseIdCase)
        (some "\x7ba.b.id\x7d") st0).1 = "ID-A" ∧
    jsGet recIdA "_b_value" = JSValue.str "ID-B" ∧
    ("ID-A" : String) ≠ "ID-B" ∧
    (asyncReplaceDynamicValues demoMethods storeIdCase (some baseIdCase)
        (some "\x7ba.b.id\x7d") st0).2.fetches = 0 := by
  refine ⟨?_, rfl, ?_, ?_⟩ <;> decide

/-- C5 (amended): for every token whose dotted path ends (case-insensitively)
in `id`, the resolved raw value is the base record's first-hop foreign-key
attribute `_lookup1_value` — regardless of any further chain segments —
with the full matched text as fallback when that attribute is null or
absent, and resolution performs no fetch (the state is returned
unchanged). -/
theorem C5_id_token_no_fetch_first_hop_value :
    ∀ (store : Store) (record : Rec) (ref : FieldRef) (st : St),
      hasDot ref.fieldPath = true →
      toLowerStr ((splitDots ref.fieldPath).getLastD "") = "id" →
      resolveFieldValue store record ref st =
        (jsCoalesce
          (jsGet record
            ("_" ++ ((splitDots ref.fieldPath).dropLast.headD "") ++ "_value"))
          (JSValue.str ref.fullMatch), st) := by
  intro store record ref st hdot hid
  rw [List.getLastD_eq_getLast?] at hid
  unfold resolveFieldValue
  rw [hdot]
  simp [hid]

/-- C5 witness: concrete instance of the amended statement on the
`\x7ba.b.id\x7d` token. -/
theorem C5_id_token_no_fetch_first_hop_value_witness :
    resolveFieldValue storeIdCase baseIdCase
      { fullMatch := "\x7ba.b.id\x7d", fieldPath := "a.b.id",
        methodCall := none } st0 =
      (jsCoalesce (jsGet baseIdCase "_a_value")
        (JSValue.str "\x7ba.b.id\x7d"), st0) := by
  have h := C5_id_token_no_fetch_first_hop_value storeIdCase baseIdCase
    { fullMatch := "\x7ba.b.id\x7d", fieldPath := "a.b.id", methodCall := none }
    st0 (by decide) (by decide)
  rw [h]
  rfl

theorem track_mem_self (st : St) (k : String) : k ∈ (track st k).tracked := by
  unfold track
  split
  · assumption
  · simp

theorem track_mem_mono (st : St) (k k' : String) (h : k' ∈ st.tracked) :
    k' ∈ (track st k).tracked := by
  unfold track
  split
  · exact h
  · simp [h]

/-- Frame relation between effect states: the tracked set grows, and the
cache is unchanged at every key that is not tracked afterwards (so all cache
writes happened at tracked keys). -/
def StFrame (st st' : St) : Prop :=
  (∀ k, k ∈ st.tracked → k ∈ st'.tracked) ∧
  (∀ k, k ∉ st'.tracked → lookupCache st'.cache k = lookupCache st.cache k)

theorem stFrame_refl (st : St) : StFrame st st :=
  ⟨fun _ h => h, fun _ _ => rfl⟩

theorem stFrame_trans {st1 st2 st3 : St} (h12 : StFrame st1 st2)
    (h23 : StFrame st2 st3) : StFrame st1 st3 := by
  refine ⟨fun k hk => h23.1 k (h12.1 k hk), fun k hk => ?_⟩
  have hk2 : k ∉ st2.tracked := fun hc => hk (h23.1 k hc)
  rw [h23.2 k hk, h12.2 k hk2]

theorem track_stFrame (st : St) (k : String) : StFrame st (track st k) := by
  constructor
  · exact fun k' h => track_mem_mono st k k' h
  · intro k' _
    rw [track_cache]

theorem fetchPart_tracked (store : Store) (e i : String) (st : St) :
    ((fetchPart store e i st).2).tracked = st.tracked := by
  unfold fetchPart
  cases store e i <;> rfl

theorem fetchPart_cache_ne (store : Store) (e i : String) (st : St)
    (k : String) (h : k ≠ e ++ ":" ++ i) :
    lookupCache ((fetchPart store e i st).2).cache k =
      lookupCache st.cache k := by
  unfold fetchPart
  cases store e i <;> simp only []
  · rw [lookup_deleteCache_ne _ _ _ h, lookup_setCache_ne _ _ _ _ h]
  · rw [lookup_setCache_ne _ _ _ _ h, lookup_setCache_ne _ _ _ _ h]

theorem fetchPart_stFrame (store : Store) (e i : String) (st : St)
    (hk : (e ++ ":" ++ i) ∈ st.tracked) :
    StFrame st ((fetchPart store e i st).2) := by
  constructor
  · intro k h
    rw [fetchPart_tracked]
    exact h
  · intro k h
    rw [fetchPart_tracked] at h
    have : k ≠ e ++ ":" ++ i := fun hc => h (hc ▸ hk)
    exact fetchPart_cache_ne store e i st k this

theorem fetchPart_fail (store : Store) (e i : String) (st : St)
    (h : store e i = none) :
    (fetchPart store e i st).1 = Except.error () ∧
    lookupCache ((fetchPart store e i st).2).cache (e ++ ":" ++ i) = none ∧
    ((fetchPart store e i st).2).fetches = st.fetches + 1 := by
  unfold fetchPart
  rw [h]
  exact ⟨rfl, lookup_deleteCache_self _ _, rfl⟩

theorem rrwcAux_frame (store : Store) (e i : String) :
    ∀ (remaining : Nat) (st : St),
      StFrame st ((retrieveRecordWithCacheAux store e i remaining st).2) ∧
      (e ++ ":" ++ i) ∈
        ((retrieveRecordWithCacheAux store e i remaining st).2).tracked := by
  intro remaining
  induction remaining with
  | zero =>
    intro st
    unfold retrieveRecordWithCacheAux
    rcases hl : lookupCache (track st (e ++ ":" ++ i)).cache (e ++ ":" ++ i) with
      _ | ⟨_ | r⟩ <;> simp only [hl]
    · refine ⟨stFrame_trans (track_stFrame st _)
        (fetchPart_stFrame store e i _ (track_mem_self st _)), ?_⟩
      rw [fetchPart_tracked]
      exact track_mem_self st _
    · have hfr : StFrame (track st (e ++ ":" ++ i))
          ((fetchPart store e i
            { track st (e ++ ":" ++ i) with
              cache := deleteCache (track st (e ++ ":" ++ i)).cache
                (e ++ ":" ++ i) }).2) := by
        constructor
        · intro k h
          rw [fetchPart_tracked]
          exact h
        · intro k h
          rw [fetchPart_tracked] at h
          have hne : k ≠ e ++ ":" ++ i :=
            fun hc => h (hc ▸ track_mem_self st _)
          rw [fetchPart_cache_ne _ _ _ _ _ hne]
          exact lookup_deleteCache_ne _ _ _ hne
      refine ⟨stFrame_trans (track_stFrame st _) hfr, ?_⟩
      rw [fetchPart_tracked]
      exact track_mem_self st _
    · exact ⟨track_stFrame st _, track_mem_self st _⟩
  | succ remaining' ih =>
    intro st
    unfold retrieveRecordWithCacheAux
    rcases hl : lookupCache (track st (e ++ ":" ++ i)).cache (e ++ ":" ++ i) with
      _ | ⟨_ | r⟩ <;> simp only [hl]
    · refine ⟨stFrame_trans (track_stFrame st _)
        (fetchPart_stFrame store e i _ (track_mem_self st _)), ?_⟩
      rw [fetchPart_tracked]
      exact track_mem_self st _
    · obtain ⟨ihf, ihm⟩ := ih (track st (e ++ ":" ++ i))
      rcases hr : retrieveRecordWithCacheAux store e i remaining'
          (track st (e ++ ":" ++ i)) with ⟨res, st'⟩
      rw [hr] at ihf ihm
      have base : StFrame st st' ∧ (e ++ ":" ++ i) ∈ st'.tracked :=
        ⟨stFrame_trans (track_stFrame st _) ihf, ihm⟩
      cases res with
      | error u =>
        simp only []
        refine ⟨⟨base.1.1, ?_⟩, base.2⟩
        intro k hk
        have hne : k ≠ e ++ ":" ++ i := fun hc => hk (hc ▸ base.2)
        simp only []
        rw [lookup_deleteCache_ne _ _ _ hne]
        exact base.1.2 k hk
      | ok r => exact base
    · exact ⟨track_stFrame st _, track_mem_self st _⟩

theorem rrwcAux_fail (store : Store) (e i : String) (hstore : store e i = none) :
    ∀ (remaining : Nat) (st : St),
      (∀ r, lookupCache st.cache (e ++ ":" ++ i) ≠ some (CEntry.done r)) →
      (retrieveRecordWithCacheAux store e i remaining st).1 = Except.error () ∧
      lookupCache ((retrieveRecordWithCacheAux store e i remaining st).2).cache
        (e ++ ":" ++ i) = none := by
  intro remaining
  induction remaining with
  | zero =>
    intro st hnd
    unfold retrieveRecordWithCacheAux
    rcases hl : lookupCache (track st (e ++ ":" ++ i)).cache (e ++ ":" ++ i) with
      _ | ⟨_ | r⟩ <;> simp only [hl]
    · exact ⟨(fetchPart_fail store e i _ hstore).1,
        (fetchPart_fail store e i _ hstore).2.1⟩
    · exact ⟨(fetchPart_fail store e i _ hstore).1,
        (fetchPart_fail store e i _ hstore).2.1⟩
    · rw [track_cache] at hl
      exact absurd hl (hnd r)
  | succ remaining' ih =>
    intro st hnd
    unfold retrieveRecordWithCacheAux
    rcases hl : lookupCache (track st (e ++ ":" ++ i)).cache (e ++ ":" ++ i) with
      _ | ⟨_ | r⟩ <;> simp only [hl]
    · exact ⟨(fetchPart_fail store e i _ hstore).1,
        (fetchPart_fail store e i _ hstore).2.1⟩
    · have hnd' : ∀ r, lookupCache (track st (e ++ ":" ++ i)).cache
          (e ++ ":" ++ i) ≠ some (CEntry.done r) := by
        intro r
        rw [hl]
        simp
      obtain ⟨h1, h2⟩ := ih (track st (e ++ ":" ++ i)) hnd'
      rcases hr : retrieveRecordWithCacheAux store e i remaining'
          (track st (e ++ ":" ++ i)) with ⟨res, st'⟩
      rw [hr] at h1 h2
      simp only [] at h1
      subst h1
      exact ⟨rfl, lookup_deleteCache_self _ _⟩
    · rw [track_cache] at hl
      exact absurd hl (hnd r)

theorem rrwc_fetch_on_miss (store : Store) (e i : String) (st : St)
    (h : lookupCache st.cache (e ++ ":" ++ i) = none) :
    ((retrieveRecordWithCache store e i 0 st).2).fetches = st.fetches + 1 := by
  have hl : lookupCache (track st (e ++ ":" ++ i)).cache (e ++ ":" ++ i) = none := by
    rw [track_cache]
    exact h
  unfold retrieveRecordWithCache retrieveRecordWithCacheAux
  simp only [hl]
  unfold fetchPart
  cases store e i <;> simp [track_fetches]

/-- C9: when the underlying `retrieveRecord` call for a key fails (and the
cache holds no completed record for that key, so the fetch actually
happens), `retrieveRecordWithCache` propagates the error and the cache ends
with no entry for the key — in particular no stuck loading marker, whether
the call started from an empty slot or from polling an existing marker —
and a subsequent call for the same key issues a fresh network fetch. -/
theorem C9_failed_fetch_clears_loading :
    ∀ (store : Store) (e i : String) (rc : Nat) (st : St),
      store e i = none →
      (∀ r, lookupCache st.cache (e ++ ":" ++ i) ≠ some (CEntry.done r)) →
      (retrieveRecordWithCache store e i rc st).1 = Except.error () ∧
      lookupCache ((retrieveRecordWithCache store e i rc st).2).cache
        (e ++ ":" ++ i) = none ∧
      ∀ store2 : Store,
        ((retrieveRecordWithCache store2 e i 0
          ((retrieveRecordWithCache store e i rc st).2)).2).fetches =
        ((retrieveRecordWithCache store e i rc st).2).fetches + 1 := by
  intro store e i rc st hstore hnd
  obtain ⟨h1, h2⟩ := rrwcAux_fail store e i hstore (5 - rc) st hnd
  exact ⟨h1, h2, fun store2 => rrwc_fetch_on_miss store2 e i _ h2⟩

/-- C9 witness: concrete failing fetch on an empty cache. -/
theorem C9_failed_fetch_clears_loading_witness :
    (retrieveRecordWithCache failStore "t" "1" 0 st0).1 = Except.error () ∧
    lookupCache ((retrieveRecordWithCache failStore "t" "1" 0 st0).2).cache
      "t:1" = none :=
  ⟨(C9_failed_fetch_clears_loading failStore "t" "1" 0 st0 rfl
      (by intro r; simp [st0, lookupCache, List.find?])).1,
   (C9_failed_fetch_clears_loading failStore "t" "1" 0 st0 rfl
      (by intro r; simp [st0, lookupCache, List.find?])).2.1⟩

theorem rrwc_stFrame (store : Store) (e i : String) (rc : Nat) (st : St) :
    StFrame st ((retrieveRecordWithCache store e i rc st).2) :=
  (rrwcAux_frame store e i (5 - rc) st).1

theorem fetchSingleLevelRecord_stFrame (store : Store) (cur : Rec)
    (f : String) (st : St) :
    StFrame st ((fetchSingleLevelRecord store cur f st).2) := by
  unfold fetchSingleLevelRecord
  rcases h1 : jsGet cur ("_" ++ f ++ "_value") with _ | _ | b | n | i | d <;>
    rcases h2 : jsGet cur
        ("_" ++ f ++ "_value@Microsoft.Dynamics.CRM.lookuplogicalname") with
      _ | _ | b2 | n2 | e | d2 <;>
    (try simp only [h1, h2]) <;> try exact stFrame_refl st
  by_cases hne : i ≠ "" ∧ e ≠ ""
  · rw [if_pos hne]
    have hf1 : StFrame st (track st (e ++ ":" ++ i)) := track_stFrame st _
    have hf2 : StFrame (track st (e ++ ":" ++ i))
        ((retrieveRecordWithCache store e i 0 (track st (e ++ ":" ++ i))).2) :=
      rrwc_stFrame store e i 0 _
    rcases hr : retrieveRecordWithCache store e i 0 (track st (e ++ ":" ++ i))
      with ⟨res, st'⟩
    rw [hr] at hf2
    cases res <;> exact stFrame_trans hf1 hf2
  · rw [if_neg hne]
    exact stFrame_refl st

theorem fetchChainLoop_stFrame (store : Store) :
    ∀ (path : List String) (cur : Rec) (st : St),
      StFrame st ((fetchChainLoop store cur path st).2) := by
  intro path
  induction path with
  | nil => intro cur st; exact stFrame_refl st
  | cons f fs ih =>
    intro cur st
    unfold fetchChainLoop
    have h1 := fetchSingleLevelRecord_stFrame store cur f st
    rcases hr : fetchSingleLevelRecord store cur f st with ⟨res, st'⟩
    rw [hr] at h1
    rcases res with u | ⟨_ | ⟨r, _⟩⟩
    · exact h1
    · exact h1
    · exact stFrame_trans h1 (ih r st')

theorem fetchRelatedRecord_stFrame (store : Store) (record : Option Rec)
    (path : List String) (st : St) :
    StFrame st ((fetchRelatedRecord store record path st).2) := by
  unfold fetchRelatedRecord
  have hres : StFrame st { st with resolves := st.resolves + 1 } :=
    ⟨fun _ h => h, fun _ _ => rfl⟩
  rcases record with _ | base
  · exact hres
  rcases path with _ | ⟨f, fs⟩
  · exact hres
  have h1 := fetchSingleLevelRecord_stFrame store base f
    { st with resolves := st.resolves + 1 }
  rcases hr : fetchSingleLevelRecord store base f
      { st with resolves := st.resolves + 1 } with ⟨res, st'⟩
  rw [hr] at h1
  simp only [hr]
  rcases res with u | ⟨_ | ⟨r1, _⟩⟩
  · exact stFrame_trans hres h1
  · exact stFrame_trans hres h1
  · exact stFrame_trans hres (stFrame_trans h1 (fetchChainLoop_stFrame store fs r1 st'))

theorem lookup_deleteTrackedKeys (tr : List String)
    (c : List (String × CEntry)) (k : String) :
    lookupCache (deleteTrackedKeys tr c) k =
      if k ∈ tr then none else lookupCache c k := by
  induction tr generalizing c with
  | nil => simp [deleteTrackedKeys]
  | cons t ts ih =>
    have step : deleteTrackedKeys (t :: ts) c =
        deleteTrackedKeys ts (deleteCache c t) := rfl
    rw [step, ih]
    by_cases hts : k ∈ ts
    · simp [hts]
    · by_cases hkt : k = t
      · subst hkt
        simp [hts, lookup_deleteCache_self]
      · simp [hts, hkt, lookup_deleteCache_ne c t k hkt]

/-- C10: every cache write `retrieveRecordWithCache` performs — for the base
record or for any lookup hop reached through `fetchRelatedRecord` — happens
at a key that is in the component's `fetchedRecordKeys` set afterwards
(equivalently, the cache is untouched at every key not tracked afterwards),
the tracked set only grows, and therefore the post-save handler / unmount
cleanup, which deletes exactly the tracked keys, removes every cache entry
the instance created: afterwards each key is either deleted or still holds
exactly what it held before the operation. -/
theorem C10_tracked_keys_cover_cache_writes :
    ∀ (store : Store) (e i : String) (rc : Nat) (st : St),
      (∀ k, k ∉ ((retrieveRecordWithCache store e i rc st).2).tracked →
        lookupCache ((retrieveRecordWithCache store e i rc st).2).cache k =
          lookupCache st.cache k) ∧
      (∀ k, k ∈ st.tracked →
        k ∈ ((retrieveRecordWithCache store e i rc st).2).tracked) ∧
      (∀ k, lookupCache
          (deleteTrackedKeys ((retrieveRecordWithCache store e i rc st).2).tracked
            ((retrieveRecordWithCache store e i rc st).2).cache) k = none ∨
        lookupCache
          (deleteTrackedKeys ((retrieveRecordWithCache store e i rc st).2).tracked
            ((retrieveRecordWithCache store e i rc st).2).cache) k =
          lookupCache st.cache k) ∧
      ∀ (record : Option Rec) (path : List String),
        (∀ k, k ∉ ((fetchRelatedRecord store record path st).2).tracked →
          lookupCache ((fetchRelatedRecord store record path st).2).cache k =
            lookupCache st.cache k) ∧
        (∀ k, lookupCache
            (deleteTrackedKeys ((fetchRelatedRecord store record path st).2).tracked
              ((fetchRelatedRecord store record path st).2).cache) k = none ∨
          lookupCache
            (deleteTrackedKeys ((fetchRelatedRecord store record path st).2).tracked
              ((fetchRelatedRecord store record path st).2).cache) k =
            lookupCache st.cache k) := by
  intro store e i rc st
  have hfr := rrwc_stFrame store e i rc st
  refine ⟨hfr.2, hfr.1, ?_, ?_⟩
  · intro k
    rw [lookup_deleteTrackedKeys]
    by_cases hk : k ∈ ((retrieveRecordWithCache store e i rc st).2).tracked
    · left
      simp [hk]
    · right
      simp only [hk, if_neg, not_false_iff]
      exact hfr.2 k hk
  · intro record path
    have hfr2 := fetchRelatedRecord_stFrame store record path st
    refine ⟨hfr2.2, ?_⟩
    intro k
    rw [lookup_deleteTrackedKeys]
    by_cases hk : k ∈ ((fetchRelatedRecord store record path st).2).tracked
    · left
      simp [hk]
    · right
      simp only [hk, if_neg, not_false_iff]
      exact hfr2.2 k hk

/-- C10 witness: after a concrete fetch, a key the instance never touched
still holds its prior cache entry, and the cleanup leaves it intact. -/
theorem C10_tracked_keys_cover_cache_writes_witness :
    lookupCache ((retrieveRecordWithCache storeDup "t" "R1" 0
        { st0 with cache := [("other:1", CEntry.done recR1)] }).2).cache
      "other:1" =
      lookupCache [("other:1", CEntry.done recR1)] "other:1" :=
  (C10_tracked_keys_cover_cache_writes storeDup "t" "R1" 0
    { st0 with cache := [("other:1", CEntry.done recR1)] }).1 "other:1"
    (by decide)

theorem rrwc_cache_hit (store : Store) (e i : String) (rc : Nat) (st : St)
    (r : Rec) (h : lookupCache st.cache (e ++ ":" ++ i) = some (CEntry.done r)) :
    retrieveRecordWithCache store e i rc st =
      (Except.ok r, track st (e ++ ":" ++ i)) := by
  have hl : lookupCache (track st (e ++ ":" ++ i)).cache (e ++ ":" ++ i) =
      some (CEntry.done r) := by
    rw [track_cache]
    exact h
  unfold retrieveRecordWithCache retrieveRecordWithCacheAux
  simp only [hl]

theorem rrwc_miss_success (store : Store) (e i : String) (st : St) (r : Rec)
    (hmiss : lookupCache st.cache (e ++ ":" ++ i) = none)
    (hstore : store e i = some r) :
    ∃ stx : St, retrieveRecordWithCache store e i 0 st = (Except.ok r, stx) ∧
      stx.fetches = st.fetches + 1 ∧ stx.resolves = st.resolves := by
  have hl : lookupCache (track st (e ++ ":" ++ i)).cache (e ++ ":" ++ i) =
      none := by
    rw [track_cache]
    exact hmiss
  unfold retrieveRecordWithCache retrieveRecordWithCacheAux
  simp only [hl]
  unfold fetchPart
  simp only [hstore]
  refine ⟨_, rfl, ?_, ?_⟩ <;> simp [track]  <;> split <;> rfl

/-- C4 counterexample: in the template `\x7ba.x\x7d and \x7ba.x\x7d` the same
dotted field path occurs twice and the resolution loop runs
`fetchRelatedRecord` once per occurrence — twice, not once as the claim
states — while the record cache keeps the network fetch count at one. -/
theorem C4_duplicate_path_resolved_twice :
    ((asyncReplaceDynamicValues demoMethods storeDup (some baseDup)
        (some "\x7ba.x\x7d and \x7ba.x\x7d") st0).2).resolves = 2 ∧
    ((asyncReplaceDynamicValues demoMethods storeDup (some baseDup)
        (some "\x7ba.x\x7d and \x7ba.x\x7d") st0).2).resolves ≠ 1 ∧
    ((asyncReplaceDynamicValues demoMethods storeDup (some baseDup)
        (some "\x7ba.x\x7d and \x7ba.x\x7d") st0).2).fetches = 1 := by
  refine ⟨?_, ?_, ?_⟩ <;> decide

/-- C4 (amended): the lookup-resolution work is performed once per token
occurrence, not once per distinct field path; what de-duplicates is the
record cache: a `retrieveRecordWithCache` call for a key whose record is
already cached returns it without any network fetch (the state changes at
most by tracking the key), so repeated references within one template add
no network fetches — concretely, the duplicated-reference template above
issues exactly one fetch for two resolutions. -/
theorem C4_duplicate_path_single_network_fetch :
    (∀ (store : Store) (e i : String) (rc : Nat) (st : St) (r : Rec),
      lookupCache st.cache (e ++ ":" ++ i) = some (CEntry.done r) →
      retrieveRecordWithCache store e i rc st =
        (Except.ok r, track st (e ++ ":" ++ i))) ∧
    ((asyncReplaceDynamicValues demoMethods storeDup (some baseDup)
        (some "\x7ba.x\x7d and \x7ba.x\x7d") st0).2).fetches = 1 ∧
    (asyncReplaceDynamicValues demoMethods storeDup (some baseDup)
        (some "\x7ba.x\x7d and \x7ba.x\x7d") st0).1 = "V and V" := by
  refine ⟨rrwc_cache_hit, ?_, ?_⟩ <;> decide

/-- C4 witness: a cached key is returned without a fetch. -/
theorem C4_duplicate_path_single_network_fetch_witness :
    retrieveRecordWithCache storeDup "t" "R1" 0
        { st0 with cache := [("t:R1", CEntry.done recR1)] } =
      (Except.ok recR1,
       track { st0 with cache := [("t:R1", CEntry.done recR1)] } "t:R1") :=
  (C4_duplicate_path_single_network_fetch.1) storeDup "t" "R1" 0
    { st0 with cache := [("t:R1", CEntry.done recR1)] } recR1 (by decide)

theorem fetchSingle_broken (store : Store) (cur : Rec) (f : String) (st : St)
    (h1 : jsGet cur ("_" ++ f ++ "_value") = JSValue.undef) :
    fetchSingleLevelRecord store cur f st = (Except.ok none, st) := by
  unfold fetchSingleLevelRecord
  simp only [h1]

/-- C1 counterexample: with the first hop resolving to `accountA1` (which
lacks the `parentaccountid` lookup attributes but has a `websiteurl`), the
`SmartButton.tsx` chain walker does not return null on the broken second
hop — it `break`s and returns the intermediate record — and `resolveText`
then substitutes that record's `websiteurl` instead of leaving the literal
token text; exactly one fetch is issued. -/
theorem C1_fetchRelatedRecord_break_counterexample :
    (fetchRelatedRecord storeAcme (some baseContact)
        ["parentcustomerid", "parentaccountid"] st0).1 = some accountA1 ∧
    jsGet accountA1 "_parentaccountid_value" = JSValue.undef ∧
    (asyncReplaceDynamicValues demoMethods storeAcme (some baseContact)
        (some "\x7bparentcustomerid.parentaccountid.websiteurl\x7d") st0).1 =
      "http://x.example" ∧
    (asyncReplaceDynamicValues demoMethods storeAcme (some baseContact)
        (some "\x7bparentcustomerid.parentaccountid.websiteurl\x7d") st0).1 ≠
      "\x7bparentcustomerid.parentaccountid.websiteurl\x7d" ∧
    ((asyncReplaceDynamicValues demoMethods storeAcme (some baseContact)
        (some "\x7bparentcustomerid.parentaccountid.websiteurl\x7d") st0).2).fetches = 1 := by
  refine ⟨?_, rfl, ?_, ?_, ?_⟩ <;> decide

/-- C1 (amended): on a two-hop chain whose first hop resolves (to `r1`,
fetched once) and whose second hop's id attribute is absent on `r1`, the
`SmartButton.tsx` `fetchRelatedRecord` stops and returns the intermediate
record `r1` — null is returned only when the first hop is broken or a fetch
throws — and `resolveText` therefore substitutes `r1`'s value for the final
field when present; the literal token text survives (with exactly one
fetch) only when the intermediate record also lacks the final field, as in
the §8 scenario below. -/
theorem C1_fetchRelatedRecord_partial_chain :
    (∀ (store : Store) (base r1 : Rec) (st : St) (f1 f2 i e : String),
      jsGet base ("_" ++ f1 ++ "_value") = JSValue.str i → i ≠ "" →
      jsGet base ("_" ++ f1 ++ "_value@Microsoft.Dynamics.CRM.lookuplogicalname") =
        JSValue.str e → e ≠ "" →
      store e i = some r1 →
      lookupCache st.cache (e ++ ":" ++ i) = none →
      jsGet r1 ("_" ++ f2 ++ "_value") = JSValue.undef →
      ∃ st' : St, fetchRelatedRecord store (some base) [f1, f2] st =
          (some r1, st') ∧ st'.fetches = st.fetches + 1) ∧
    (asyncReplaceDynamicValues demoMethods storeAcmeNoUrl (some baseContact)
        (some "\x7bparentcustomerid.parentaccountid.websiteurl\x7d") st0).1 =
      "\x7bparentcustomerid.parentaccountid.websiteurl\x7d" ∧
    ((asyncReplaceDynamicValues demoMethods storeAcmeNoUrl (some baseContact)
        (some "\x7bparentcustomerid.parentaccountid.websiteurl\x7d") st0).2).fetches = 1 := by
  refine ⟨?_, by decide, by decide⟩
  intro store base r1 st f1 f2 i e h1 hi h2 he hstore hmiss hbroken
  unfold fetchRelatedRecord
  have hrs : StFrame st { st with resolves := st.resolves + 1 } :=
    ⟨fun _ h => h, fun _ _ => rfl⟩
  simp only []
  unfold fetchSingleLevelRecord
  simp only [h1, h2]
  rw [if_pos ⟨hi, he⟩]
  obtain ⟨stx, heq, hfet, _⟩ := rrwc_miss_success store e i
    (track { st with resolves := st.resolves + 1 } (e ++ ":" ++ i)) r1
    (by rw [track_cache]; exact hmiss) hstore
  rw [heq]
  simp only []
  unfold fetchChainLoop
  rw [fetchSingle_broken store r1 f2 stx hbroken]
  refine ⟨stx, rfl, ?_⟩
  rw [hfet, track_fetches]

/-- C1 amended-claim witness: concrete instance of the two-hop
characterisation. -/
theorem C1_fetchRelatedRecord_partial_chain_witness :
    ∃ st' : St, fetchRelatedRecord storeAcme (some baseContact)
        ["parentcustomerid", "parentaccountid"] st0 = (some accountA1, st') ∧
      st'.fetches = st0.fetches + 1 :=
  C1_fetchRelatedRecord_partial_chain.1 storeAcme baseContact accountA1 st0
    "parentcustomerid" "parentaccountid" "A1" "account"
    rfl (by decide) rfl (by decide) rfl rfl rfl

theorem assocFind_set_self {α : Type} (m : List (String × α)) (k : String)
    (v : α) : assocFind (assocSet m k v) k = some v := by
  induction m with
  | nil => simp [assocSet, assocFind, List.find?]
  | cons p rest ih =>
    unfold assocSet
    by_cases hp : p.1 = k
    · simp [hp, assocFind, List.find?]
    · simp only [hp, if_neg, not_false_iff]
      simp only [assocFind, List.find?]
      have : (decide (p.1 = k)) = false := by simp [hp]
      rw [this]
      exact ih

theorem assocFind_set_ne {α : Type} (m : List (String × α)) (k k' : String)
    (v : α) (h : k' ≠ k) :
    assocFind (assocSet m k v) k' = assocFind m k' := by
  induction m with
  | nil =>
    simp only [assocSet, assocFind, List.find?]
    have : (decide (k = k')) = false := by
      simp
      exact fun hc => absurd hc.symm h
    rw [this]
  | cons p rest ih =>
    unfold assocSet
    by_cases hp : p.1 = k
    · simp only [hp, if_pos]
      simp only [assocFind, List.find?]
      have h1 : (decide (k = k')) = false := by
        simp
        exact fun hc => absurd hc.symm h
      have h2 : (decide (p.1 = k')) = false := by
        rw [hp]
        exact h1
      rw [h1, h2]
    · simp only [hp, if_neg, not_false_iff]
      by_cases hk' : p.1 = k'
      · simp [assocFind, List.find?, hk']
      · simp only [assocFind, List.find?]
        have : (decide (p.1 = k')) = false := by simp [hk']
        rw [this]
        exact ih

theorem createDataObjectAsync_key_mem (store : Store) (record : Rec) :
    ∀ (refs : List String) (data : List (String × JSValue)) (est : EESt)
      (k : String),
      k ∈ refs ∨ (assocFind data k).isSome = true →
      (assocFind (createDataObjectAsync store record refs data est).1 k).isSome =
        true := by
  intro refs
  induction refs with
  | nil =>
    intro data est k h
    rcases h with h | h
    · simp at h
    · exact h
  | cons r rs ih =>
    intro data est k h
    unfold createDataObjectAsync
    have hnext : ∀ (data' : List (String × JSValue)),
        data' = assocSet data r (convertValueToProperType
          (jsGet record r)) ∨ True →
        True := fun _ _ => trivial
    by_cases hd : hasDot r
    · simp only [hd, if_pos]
      rcases hg : getRelatedFieldValue store record r est with ⟨v, est'⟩
      simp only []
      apply ih
      by_cases hk : k = r
      · right
        subst hk
        rw [assocFind_set_self]
        rfl
      · rcases h with h | h
        · rcases List.mem_cons.mp h with h | h
          · exact absurd h hk
          · exact Or.inl h
        · right
          rw [assocFind_set_ne data r k _ hk]
          exact h
    · simp only [hd, Bool.false_eq_true, if_neg, not_false_iff]
      apply ih
      by_cases hk : k = r
      · right
        subst hk
        rw [assocFind_set_self]
        rfl
      · rcases h with h | h
        · rcases List.mem_cons.mp h with h | h
          · exact absurd h hk
          · exact Or.inl h
        · right
          rw [assocFind_set_ne data r k _ hk]
          exact h

/-- C8: an expression containing a dotted (lookup-chain) field reference
makes the synchronous `evaluate` return `false` (its body contains no fetch
call site, so no lookup is performed); `evaluateAsync` instead builds the
data object first — resolving every reference, so each one ends up bound in
the map — and then evaluates the expression over it. -/
theorem C8_sync_refuses_dotted_async_resolves :
    ∀ (jsEval : JsEval) (store : Store) (record : Rec) (expression : String)
      (est : EESt),
      (extractFieldReferences expression).any (fun ref => hasDot ref) = true →
      evaluate jsEval record expression = false ∧
      evaluateAsync jsEval store record expression est =
        (safeEvaluateWithData jsEval record expression
          (createDataObjectAsync store record
            (extractFieldReferences expression) [] est).1,
         (createDataObjectAsync store record
            (extractFieldReferences expression) [] est).2) ∧
      ∀ ref ∈ extractFieldReferences expression,
        (assocFind (createDataObjectAsync store record
          (extractFieldReferences expression) [] est).1 ref).isSome = true := by
  intro jsEval store record expression est hdot
  have hne : expression ≠ "" := by
    intro hc
    subst hc
    simp [extractFieldReferences, scanSimpleAux] at hdot
  refine ⟨?_, ?_, ?_⟩
  · unfold evaluate
    rw [if_neg hne]
    simp [hdot]
  · unfold evaluateAsync
    rw [if_neg hne]
  · intro ref href
    exact createDataObjectAsync_key_mem store record _ [] est ref (Or.inl href)

/-- C8 witness: concrete dotted expression. -/
theorem C8_sync_refuses_dotted_async_resolves_witness :
    evaluate demoJsEval baseDup "\x7ba.x\x7d === 1" = false :=
  (C8_sync_refuses_dotted_async_resolves demoJsEval storeDup baseDup
    "\x7ba.x\x7d === 1" est0 (by decide)).1

theorem resolveOneConfig_position (methods : MethodTable) (store : Store)
    (record : Rec) (cfg : ButtonConfig) (st : St) :
    ((resolveOneConfig methods store record cfg st).1).theia_buttonposition =
      cfg.theia_buttonposition := rfl

theorem resolveConfigsLoop_eq_all (methods : MethodTable) (jsEval : JsEval)
    (store : Store) (record : Rec) :
    ∀ (l : List ButtonConfig) (ps : PipeSt),
      resolveConfigsLoop methods jsEval store record l ps =
        (((resolveConfigsAll methods jsEval store record l ps).1.filter
            (fun pr => pr.2)).map
          (fun pr => { pr.1 with isVisible := some true }),
         (resolveConfigsAll methods jsEval store record l ps).2) := by
  intro l
  induction l with
  | nil => intro ps; rfl
  | cons cfg rest ih =>
    intro ps
    unfold resolveConfigsLoop resolveConfigsAll
    rcases h1 : resolveOneConfig methods store record cfg ps.st with ⟨rc, st'⟩
    simp only [h1]
    rcases h2 : configVisibility jsEval store record rc ps.est with ⟨vis, est'⟩
    simp only [h2]
    rw [ih ⟨st', est'⟩]
    rcases hall : resolveConfigsAll methods jsEval store record rest
        ⟨st', est'⟩ with ⟨outAll, ps'⟩
    simp only [hall]
    cases vis <;> simp [List.filter]

theorem resolveConfigsAll_positions (methods : MethodTable) (jsEval : JsEval)
    (store : Store) (record : Rec) :
    ∀ (l : List ButtonConfig) (ps : PipeSt),
      ((resolveConfigsAll methods jsEval store record l ps).1).map
          (fun pr => pr.1.theia_buttonposition) =
        l.map (fun c => c.theia_buttonposition) := by
  intro l
  induction l with
  | nil => intro ps; rfl
  | cons cfg rest ih =>
    intro ps
    unfold resolveConfigsAll
    rcases h1 : resolveOneConfig methods store record cfg ps.st with ⟨rc, st'⟩
    simp only [h1]
    rcases h2 : configVisibility jsEval store record rc ps.est with ⟨vis, est'⟩
    simp only [h2]
    rcases hall : resolveConfigsAll methods jsEval store record rest
        ⟨st', est'⟩ with ⟨outAll, ps'⟩
    simp only [hall]
    have := ih ⟨st', est'⟩
    rw [hall] at this
    simp only [List.map_cons, this]
    have hpos : rc.theia_buttonposition = cfg.theia_buttonposition := by
      have := resolveOneConfig_position methods store record cfg ps.st
      rw [h1] at this
      exact this
    rw [hpos]

theorem orderedInsert_filter_eq (p : Int) (x : ButtonConfig)
    (hx : x.theia_buttonposition = p) :
    ∀ l : List ButtonConfig,
      (List.orderedInsert posLe x l).filter
          (fun c => c.theia_buttonposition == p) =
        x :: l.filter (fun c => c.theia_buttonposition == p) := by
  intro l
  induction l with
  | nil => simp [List.orderedInsert, List.filter, hx]
  | cons b l ih =>
    unfold List.orderedInsert
    by_cases hle : posLe x b
    · simp only [hle, if_pos]
      simp [List.filter, hx]
    · simp only [hle, if_neg, not_false_iff]
      have hblt : b.theia_buttonposition < x.theia_buttonposition := by
        unfold posLe at hle
        omega
    
      have hbne : (b.theia_buttonposition == p) = false := by
        simp
        omega
      simp only [List.filter, hbne]
      exact ih

theorem orderedInsert_filter_ne (p : Int) (x : ButtonConfig)
    (hx : x.theia_buttonposition ≠ p) :
    ∀ l : List ButtonConfig,
      (List.orderedInsert posLe x l).filter
          (fun c => c.theia_buttonposition == p) =
        l.filter (fun c => c.theia_buttonposition == p) := by
  intro l
  induction l with
  | nil =>
    have hxne : (x.theia_buttonposition == p) = false := by simp [hx]
    simp [List.orderedInsert, List.filter, hxne]
  | cons b l ih =>
    unfold List.orderedInsert
    by_cases hle : posLe x b
    · simp only [hle, if_pos]
      have hxne : (x.theia_buttonposition == p) = false := by simp [hx]
      simp only [List.filter, hxne]
    · simp only [hle, if_neg, not_false_iff]
      simp only [List.filter]
      cases hb : b.theia_buttonposition == p <;> simp [ih]

theorem insertionSort_filter_position (p : Int) :
    ∀ l : List ButtonConfig,
      (List.insertionSort posLe l).filter
          (fun c => c.theia_buttonposition == p) =
        l.filter (fun c => c.theia_buttonposition == p) := by
  intro l
  induction l with
  | nil => rfl
  | cons x l ih =>
    unfold List.insertionSort
    by_cases hx : x.theia_buttonposition = p
    · rw [orderedInsert_filter_eq p x hx, ih]
      simp [List.filter, hx]
    · rw [orderedInsert_filter_ne p x hx, ih]
      have hxne : (x.theia_buttonposition == p) = false := by simp [hx]
      simp [List.filter, hxne]

/-- C3: one resolution pass sorts the configs ascending by position (the
output's position list is sorted), the output is exactly the
visibility-filtered image of the resolution of the stably sorted input with
`isVisible` attached to every surviving config, the sort is stable (configs
with equal position keep their original relative order), and the sorted
list is a permutation of the input. -/
theorem C3_resolveConfigs_sorted_stable_filtered :
    ∀ (methods : MethodTable) (jsEval : JsEval) (store : Store) (record : Rec)
      (cfgs : List ButtonConfig) (ps : PipeSt),
      List.Sorted (· ≤ ·)
        (((resolveConfigs methods jsEval store record cfgs ps).1).map
          (fun c => c.theia_buttonposition)) ∧
      (resolveConfigs methods jsEval store record cfgs ps).1 =
        ((resolveConfigsAll methods jsEval store record
            (sortByPosition cfgs) ps).1.filter (fun pr => pr.2)).map
          (fun pr => { pr.1 with isVisible := some true }) ∧
      (∀ c ∈ (resolveConfigs methods jsEval store record cfgs ps).1,
        c.isVisible = some true) ∧
      (∀ p : Int,
        (sortByPosition cfgs).filter (fun c => c.theia_buttonposition == p) =
          cfgs.filter (fun c => c.theia_buttonposition == p)) ∧
      (sortByPosition cfgs).Perm cfgs := by
  intro methods jsEval store record cfgs ps
  have hloop := resolveConfigsLoop_eq_all methods jsEval store record
    (sortByPosition cfgs) ps
  have hchar : (resolveConfigs methods jsEval store record cfgs ps).1 =
      ((resolveConfigsAll methods jsEval store record
          (sortByPosition cfgs) ps).1.filter (fun pr => pr.2)).map
        (fun pr => { pr.1 with isVisible := some true }) := by
    unfold resolveConfigs
    rw [hloop]
  refine ⟨?_, hchar, ?_, ?_, List.perm_insertionSort posLe cfgs⟩
  · rw [hchar]
    have hsub : ((resolveConfigsAll methods jsEval store record
        (sortByPosition cfgs) ps).1.filter (fun pr => pr.2)).Sublist
        (resolveConfigsAll methods jsEval store record
          (sortByPosition cfgs) ps).1 := List.filter_sublist _
    have hmapsub := List.Sublist.map (fun pr => pr.1.theia_buttonposition) hsub
    have hall := resolveConfigsAll_positions methods jsEval store record
      (sortByPosition cfgs) ps
    have hsorted : List.Sorted posLe (sortByPosition cfgs) :=
      List.sorted_insertionSort posLe cfgs
    have hsortedmap : List.Sorted (· ≤ ·)
        ((sortByPosition cfgs).map (fun c => c.theia_buttonposition)) :=
      List.Pairwise.map _ (fun a b h => h) hsorted
    rw [hall] at hmapsub
    have hfinal := List.Pairwise.sublist hmapsub hsortedmap
    have hmm : (((resolveConfigsAll methods jsEval store record
        (sortByPosition cfgs) ps).1.filter (fun pr => pr.2)).map
          (fun pr => { pr.1 with isVisible := some true })).map
            (fun c => c.theia_buttonposition) =
        ((resolveConfigsAll methods jsEval store record
          (sortByPosition cfgs) ps).1.filter (fun pr => pr.2)).map
            (fun pr => pr.1.theia_buttonposition) := by
      rw [List.map_map]
      rfl
    rw [hmm]
    exact hfinal
  · intro c hc
    rw [hchar] at hc
    obtain ⟨pr, _, rfl⟩ := List.mem_map.mp hc
    rfl
  · intro p
    exact insertionSort_filter_position p cfgs
